import Mathlib

set_option maxHeartbeats 1000000
set_option maxRecDepth 8000
set_option linter.unusedTactic false
set_option linter.unusedVariables false
set_option linter.unreachableTactic false

namespace Glb

/-! Shallow embedding of the glTF/GLB parser subsystem of the repository:
the structural hash (src/src/core/hash.js), the GLB chunk reader, the
accessor reader, the mesh/vertex-buffer deduplication, the quaternion
continuity fix of the animation builder, and the node-hierarchy assembly
(all from the glb-parser source file). -/

/-- Signed 32-bit wrap-around as performed by the JavaScript `|0` coercion:
reduce modulo 2^32 into the range [-2^31, 2^31). -/
def wrap32 (x : Int) : Int :=
  (x + 2 ^ 31) % 2 ^ 32 - 2 ^ 31

/-- Model of `hashCode(str)` from src/src/core/hash.js: fold over the code
units of the string with `hash = ((hash << 5) - hash) + charCode` followed by
`hash |= 0` (signed 32-bit wrap; the shift also wraps, hence the inner
`wrap32`).  Code units are modelled by `Char.toNat` (exact for all
basic-multilingual-plane characters; all inputs used here are ASCII). -/
def hashCode (s : String) : Int :=
  s.data.foldl (fun h c => wrap32 (wrap32 (h * 32) - h + Int.ofNat c.toNat)) 0

/-- JSON-like value tree, the input domain of `objectHashCode`.  Numbers are
restricted to integers (all inputs relevant to the parser's deduplication
keys are integers), and JavaScript `null`/`undefined` are outside the model:
`getSortedObject` throws a TypeError on `null`, and `undefined` cannot occur
in a parsed JSON document. -/
inductive Json where
  | num (n : Int)
  | str (s : String)
  | bool (b : Bool)
  | arr (elems : List Json)
  | obj (fields : List (String × Json))

/-- JavaScript string comparison (`<=` over UTF-16 code-unit sequences,
the order used by `Array.prototype.sort` on strings), on character lists. -/
def jsCharsLe : List Char → List Char → Bool
  | [], _ => true
  | _ :: _, [] => false
  | a :: as, b :: bs =>
    if a.toNat < b.toNat then true
    else if b.toNat < a.toNat then false
    else jsCharsLe as bs

/-- JavaScript string comparison on strings. -/
def jsStrLe (a b : String) : Bool :=
  jsCharsLe a.data b.data

theorem jsCharsLe_total : ∀ a b, jsCharsLe a b = true ∨ jsCharsLe b a = true
  | [], _ => Or.inl rfl
  | _ :: _, [] => Or.inr rfl
  | a :: as, b :: bs => by
    rcases jsCharsLe_total as bs with h | h <;>
      simp only [jsCharsLe] <;> split_ifs <;> simp_all <;> omega

theorem jsCharsLe_trans :
    ∀ {a b c}, jsCharsLe a b = true → jsCharsLe b c = true → jsCharsLe a c = true
  | [], _, _, _, _ => rfl
  | _ :: _, [], _, h1, _ => by simp [jsCharsLe] at h1
  | _ :: _, _ :: _, [], _, h2 => by simp [jsCharsLe] at h2
  | a :: as, b :: bs, c :: cs, h1, h2 => by
    simp only [jsCharsLe] at h1 h2 ⊢
    split_ifs at h1 h2 ⊢ <;> first
      | rfl
      | omega
      | exact jsCharsLe_trans h1 h2
      | simp_all

/-- Order used by `Object.keys(object).sort()`: JavaScript lexicographic
string order on the keys (values are irrelevant to the comparison). -/
def keyLe (a b : String × Json) : Prop := jsStrLe a.1 b.1 = true

instance : DecidableRel keyLe := fun a b => inferInstanceAs (Decidable (_ = true))

instance : IsTotal (String × Json) keyLe := ⟨fun a b => jsCharsLe_total a.1.data b.1.data⟩

instance : IsTrans (String × Json) keyLe := ⟨fun _ _ _ h1 h2 => jsCharsLe_trans h1 h2⟩

/-- Sorting an object's field list by key, the `Object.keys(...).sort()`
step of `getSortedObject` (stable insertion sort; JavaScript's sort applied
to the distinct keys of an object is order-equivalent to any stable sort
by key). -/
def sortFields (fs : List (String × Json)) : List (String × Json) :=
  List.insertionSort keyLe fs

/-- Index/element field list of an array, as seen by `Object.keys` on a
JavaScript array: decimal index keys associated to the elements. -/
def enumFields (xs : List Json) : List (String × Json) :=
  xs.enum.map (fun p => (toString p.1, p.2))

/-- Index/character field list of a string, as seen by `Object.keys` on a
string: decimal index keys associated to one-character strings. -/
def charFields (s : String) : List (String × Json) :=
  s.data.enum.map (fun p => (toString p.1, Json.str (String.singleton p.2)))

mutual

/-- Model of the `getSortedObject` closure inside `objectHashCode`
(src/src/core/hash.js): list the argument's own enumerable keys
(`Object.keys`), sort them, and rebuild a plain object whose values go
through the reduce callback's array/object/primitive branches.  On an array
or a string argument `Object.keys` yields the decimal index keys; on a number
or boolean it yields no keys.  A string's character values are one-character
strings and hit the primitive copy branch.  The source sorts the key list
and then processes each value; since processing preserves keys and the sort
compares only keys, values are processed before sorting here (so that the
recursion is structural) — `getSortedObject_obj_src_order` below proves the
source's operation order gives the same result. -/
def getSortedObject : Json → Json
  | .obj fs => .obj (sortFields (gsoFields fs))
  | .arr xs => .obj (sortFields (enumFields (reduceList xs)))
  | .str s => .obj (sortFields (charFields s))
  | .num _ => .obj []
  | .bool _ => .obj []

/-- The reduce over the key list: each field value is processed by
`reduceValue`. -/
def gsoFields : List (String × Json) → List (String × Json)
  | [] => []
  | (k, v) :: rest => (k, reduceValue v) :: gsoFields rest

/-- One step of the reduce callback: `Array.isArray(v)` maps the elements
through `getSortedObject`; otherwise `typeof v === 'object'` recurses (the
object body is repeated here verbatim so that the recursion is structural);
anything else is copied unchanged. -/
def reduceValue : Json → Json
  | .arr xs => .arr (gsoList xs)
  | .obj fs => .obj (sortFields (gsoFields fs))
  | v => v

/-- Pointwise `reduceValue` over the values of an array argument. -/
def reduceList : List Json → List Json
  | [] => []
  | x :: xs => reduceValue x :: reduceList xs

/-- Pointwise `getSortedObject` over the elements of an array value. -/
def gsoList : List Json → List Json
  | [] => []
  | x :: xs => getSortedObject x :: gsoList xs

end

theorem gsoFields_eq_map (l : List (String × Json)) :
    gsoFields l = l.map (fun kv => (kv.1, reduceValue kv.2)) := by
  induction l with
  | nil => rfl
  | cons h t ih => cases h; simp [gsoFields, ih]

theorem gsoList_eq_map (l : List Json) : gsoList l = l.map getSortedObject := by
  induction l with
  | nil => rfl
  | cons h t ih => simp [gsoList, ih]

theorem reduceList_eq_map (l : List Json) : reduceList l = l.map reduceValue := by
  induction l with
  | nil => rfl
  | cons h t ih => simp [reduceList, ih]

theorem sortFields_map (g : Json → Json) (l : List (String × Json)) :
    sortFields (l.map (fun kv => (kv.1, g kv.2)))
      = (sortFields l).map (fun kv => (kv.1, g kv.2)) :=
  (List.map_insertionSort keyLe keyLe (fun kv => (kv.1, g kv.2)) l
    (fun _ _ _ _ => Iff.rfl)).symm

theorem sortFields_idem (l : List (String × Json)) :
    sortFields (sortFields l) = sortFields l :=
  List.Sorted.insertionSort_eq (List.sorted_insertionSort keyLe l)

/-- Bridge to the exact operation order of the source: sorting the keys
first and then processing each value. -/
theorem getSortedObject_obj_src_order (fs : List (String × Json)) :
    getSortedObject (.obj fs) = .obj (gsoFields (sortFields fs)) := by
  simp [getSortedObject, gsoFields_eq_map, sortFields_map]

mutual

/-- Size measure counting only the `Json` structure (keys excluded), used
as the recursion measure of proofs about `getSortedObject`. -/
def jsize : Json → Nat
  | .num _ => 1
  | .str _ => 1
  | .bool _ => 1
  | .arr xs => 1 + lsize xs
  | .obj fs => 1 + fsize fs

/-- List version of `jsize`. -/
def lsize : List Json → Nat
  | [] => 0
  | x :: xs => 1 + jsize x + lsize xs

/-- Field-list version of `jsize` (keys do not count). -/
def fsize : List (String × Json) → Nat
  | [] => 0
  | (_, v) :: r => 1 + jsize v + fsize r

end

theorem jsize_mem_list {x : Json} : ∀ {xs : List Json}, x ∈ xs → jsize x < jsize (.arr xs)
  | y :: t, h => by
    rcases List.mem_cons.mp h with rfl | h
    · simp [jsize, lsize]; omega
    · have := jsize_mem_list (show x ∈ t from h)
      simp [jsize, lsize] at *
      omega

theorem jsize_mem_fields {kv : String × Json} :
    ∀ {fs : List (String × Json)}, kv ∈ fs → jsize kv.2 < jsize (.obj fs)
  | p :: t, h => by
    rcases List.mem_cons.mp h with rfl | h
    · simp [jsize, fsize]; omega
    · have := jsize_mem_fields (show kv ∈ t from h)
      cases p
      simp [jsize, fsize] at *
      omega

mutual

/-- Recursive key-sorted normal form of a JSON-like value: object fields are
sorted by key at every depth, arrays stay arrays, primitives stay
themselves.  Two values differ only in the order of their object keys
exactly when they have the same `canon` image; this is the hypothesis-side
formalization of claim C9 and is not part of the source model. -/
def canon : Json → Json
  | .num n => .num n
  | .str s => .str s
  | .bool b => .bool b
  | .arr xs => .arr (canonList xs)
  | .obj fs => .obj (sortFields (canonFields fs))

/-- Pointwise `canon` over array elements. -/
def canonList : List Json → List Json
  | [] => []
  | x :: xs => canon x :: canonList xs

/-- Pointwise `canon` over object field values. -/
def canonFields : List (String × Json) → List (String × Json)
  | [] => []
  | (k, v) :: r => (k, canon v) :: canonFields r

end

theorem canonList_eq_map (l : List Json) : canonList l = l.map canon := by
  induction l with
  | nil => rfl
  | cons h t ih => simp [canonList, ih]

theorem canonFields_eq_map (l : List (String × Json)) :
    canonFields l = l.map (fun kv => (kv.1, canon kv.2)) := by
  induction l with
  | nil => rfl
  | cons h t ih => cases h; simp [canonFields, ih]

theorem mem_sortFields {kv : String × Json} {l : List (String × Json)}
    (h : kv ∈ sortFields l) : kv ∈ l :=
  (List.mem_insertionSort keyLe).mp h

/-- Applying the source's `getSortedObject` after key-order normalization
gives the same result as applying it directly: `getSortedObject` only
depends on the key-to-value maps of the objects in its argument, not on
their field order. -/
theorem getSortedObject_canon (j : Json) :
    getSortedObject (canon j) = getSortedObject j ∧
      reduceValue (canon j) = reduceValue j := by
  match j with
  | .num n => exact ⟨rfl, rfl⟩
  | .str s => exact ⟨rfl, rfl⟩
  | .bool b => exact ⟨rfl, rfl⟩
  | .arr xs =>
    have h1 : (canonList xs).map reduceValue = xs.map reduceValue := by
      rw [canonList_eq_map, List.map_map]
      exact List.map_congr_left (fun x hx => (getSortedObject_canon x).2)
    have h2 : (canonList xs).map getSortedObject = xs.map getSortedObject := by
      rw [canonList_eq_map, List.map_map]
      exact List.map_congr_left (fun x hx => (getSortedObject_canon x).1)
    constructor
    · show getSortedObject (.arr (canonList xs)) = _
      simp only [getSortedObject, reduceList_eq_map, h1]
    · show reduceValue (.arr (canonList xs)) = _
      simp only [reduceValue, gsoList_eq_map, h2]
  | .obj fs =>
    have key : sortFields (gsoFields (sortFields (canonFields fs)))
        = sortFields (gsoFields fs) := by
      rw [gsoFields_eq_map (sortFields (canonFields fs)), canonFields_eq_map,
        sortFields_map canon fs, gsoFields_eq_map fs, sortFields_map reduceValue fs,
        List.map_map]
      have hcongr :
          (sortFields fs).map ((fun kv => (kv.1, reduceValue kv.2)) ∘
              fun kv => (kv.1, canon kv.2)) =
            (sortFields fs).map (fun kv => (kv.1, reduceValue kv.2)) :=
        List.map_congr_left (fun kv hkv => by
          have hm : kv ∈ fs := mem_sortFields hkv
          simp only [Function.comp]
          rw [(getSortedObject_canon kv.2).2])
      rw [hcongr, sortFields_map reduceValue (sortFields fs), sortFields_idem]
    constructor
    · show getSortedObject (.obj (sortFields (canonFields fs))) = _
      simp only [getSortedObject]
      rw [key]
    · show reduceValue (.obj (sortFields (canonFields fs))) = _
      simp only [reduceValue]
      rw [key]
termination_by jsize j
decreasing_by
  all_goals first
    | exact jsize_mem_list hx
    | exact jsize_mem_fields hm

/-- Decimal digits of a string read as a number (only applied to canonical
numeric strings). -/
def strToNat (s : String) : Nat :=
  s.data.foldl (fun n c => n * 10 + (c.toNat - 48)) 0

/-- Whether a property key is an array index in the sense of the JavaScript
object model: a canonical decimal numeral below 2^32 - 1.  Such keys are
enumerated first, in ascending numeric order, by `JSON.stringify`. -/
def isArrayIndexKey (s : String) : Bool :=
  !(s == "") && s.data.all (fun c => c.isDigit) &&
    (s == "0" || !(s.data.head? == some '0')) && decide (strToNat s < 4294967295)

/-- JavaScript own-property enumeration order of an object literal: array
index keys ascending numerically first, then the remaining keys in
insertion order.  `JSON.stringify` serializes properties in this order
regardless of the order in which they were inserted. -/
def jsOwnKeyOrder {α : Type} (fs : List (String × α)) : List (String × α) :=
  List.insertionSort (fun a b => strToNat a.1 ≤ strToNat b.1)
      (fs.filter (fun p => isArrayIndexKey p.1))
    ++ fs.filter (fun p => !(isArrayIndexKey p.1))

/-- JSON string escaping of one character as performed by `JSON.stringify`. -/
def escapeChar (c : Char) : String :=
  if c = '"' then "\\\""
  else if c = '\\' then "\\\\"
  else if c = '\x08' then "\\b"
  else if c = '\x09' then "\\t"
  else if c = '\x0a' then "\\n"
  else if c = '\x0c' then "\\f"
  else if c = '\x0d' then "\\r"
  else if c.toNat < 32 then
    "\\u00" ++ String.singleton (Nat.digitChar (c.toNat / 16))
      ++ String.singleton (Nat.digitChar (c.toNat % 16))
  else String.singleton c

/-- A JSON string literal as emitted by `JSON.stringify`. -/
def quoteString (s : String) : String :=
  "\"" ++ String.join (s.data.map escapeChar) ++ "\""

mutual

/-- Model of `JSON.stringify(value)` (no spacing).  The replacer function
passed by `objectHashCode` substitutes the string "undefined" for undefined
values only; undefined does not occur in the model (see `Json`), so the
replacer is the identity here.  Object properties are emitted in JavaScript
own-key order; each field value is rendered by the structural recursion and
the fields are reordered afterwards, which is the same because rendering
keeps each key with its rendered value. -/
def jsonStringify : Json → String
  | .num n => toString n
  | .str s => quoteString s
  | .bool b => if b then "true" else "false"
  | .arr xs => "[" ++ String.intercalate "," (stringifyList xs) ++ "]"
  | .obj fs =>
    "\x7b" ++ String.intercalate ","
        ((jsOwnKeyOrder (stringifyFields fs)).map
          (fun kv => quoteString kv.1 ++ ":" ++ kv.2))
      ++ "\x7d"

/-- Rendered elements of an array. -/
def stringifyList : List Json → List String
  | [] => []
  | x :: xs => jsonStringify x :: stringifyList xs

/-- Keys with rendered values of an object's fields. -/
def stringifyFields : List (String × Json) → List (String × String)
  | [] => []
  | (k, v) :: r => (k, jsonStringify v) :: stringifyFields r

end

/-- JavaScript `delete sortedObject[key]`: removes the binding of `key` from
the top-level object (`getSortedObject` always returns a plain object). -/
def deleteKey (k : String) : Json → Json
  | .obj fs => .obj (fs.filter (fun p => !(p.1 == k)))
  | v => v

/-- Model of `objectHashCode(object, ignoreKeys)` from src/src/core/hash.js:
sort the value with `getSortedObject`, delete each ignored key from the
top-level result, serialize with `JSON.stringify` and hash the resulting
string with `hashCode`.  An absent `ignoreKeys` argument is the empty
list (the `forEach` then does nothing, like the source's `if (ignoreKeys)`
guard). -/
def objectHashCode (j : Json) (ignoreKeys : List String) : Int :=
  hashCode (jsonStringify (ignoreKeys.foldl (fun acc k => deleteKey k acc)
    (getSortedObject j)))

/-- C9: for any two JSON-like values differing only in the order of object
keys at any nesting depth (formalized: having the same recursive key-sorted
normal form `canon`), and any ignoredKeys list, the structural hashes are
equal. -/
theorem objectHashCode_key_order_invariant (a b : Json) (ign : List String)
    (h : canon a = canon b) : objectHashCode a ign = objectHashCode b ign := by
  unfold objectHashCode
  have hg : getSortedObject a = getSortedObject b := by
    rw [← (getSortedObject_canon a).1, h, (getSortedObject_canon b).1]
  rw [hg]

/-- Commutation of filtering with ordered insertion into a sorted list. -/
theorem filter_orderedInsert {α : Type} (r : α → α → Prop) [DecidableRel r]
    [IsTrans α r] (p : α → Bool) (a : α) :
    ∀ {l : List α}, List.Sorted r l →
      (List.orderedInsert r a l).filter p =
        if p a then List.orderedInsert r a (l.filter p) else l.filter p
  | [], _ => by
    cases hpa : p a <;> simp [List.orderedInsert, List.filter_cons, hpa]
  | b :: t, hs => by
    have hst : List.Sorted r t := (List.sorted_cons.mp hs).2
    have hbt : ∀ x ∈ t, r b x := (List.sorted_cons.mp hs).1
    by_cases hab : r a b
    · rw [List.orderedInsert, if_pos hab]
      cases hpa : p a
      · simp [List.filter_cons, hpa]
      · rw [if_pos rfl]
        simp only [List.filter_cons, hpa, if_pos]
        cases hpb : p b
      -- head of the filtered tail (if any) is above a, so insertion is at the front
        · cases hft : t.filter p with
          | nil => simp [List.filter_cons, hpb, hft, List.orderedInsert]
          | cons h rest =>
            have hht : h ∈ t :=
              List.mem_of_mem_filter (by rw [hft]; exact List.mem_cons_self h rest)
            have hah : r a h := Trans.trans hab (hbt h hht)
            simp [List.filter_cons, hpb, hft, List.orderedInsert, hah]
        · simp [List.filter_cons, hpb, List.orderedInsert, hab]
    · rw [List.orderedInsert, if_neg hab]
      have ih := filter_orderedInsert r p a hst
      cases hpa : p a <;> cases hpb : p b <;>
        simp [List.filter_cons, hpa, hpb, ih, List.orderedInsert, hab]

/-- Filtering commutes with the stable sort. -/
theorem filter_insertionSort {α : Type} (r : α → α → Prop) [DecidableRel r]
    [IsTotal α r] [IsTrans α r] (p : α → Bool) :
    ∀ l : List α, (List.insertionSort r l).filter p = List.insertionSort r (l.filter p)
  | [] => rfl
  | x :: l => by
    simp only [List.insertionSort]
    rw [filter_orderedInsert r p x (List.sorted_insertionSort r l),
      filter_insertionSort r p l]
    cases hx : p x <;> simp [List.filter_cons, hx, List.insertionSort]

theorem filter_sortFields (p : String × Json → Bool) (l : List (String × Json)) :
    (sortFields l).filter p = sortFields (l.filter p) :=
  filter_insertionSort keyLe p l

theorem filter_gsoFields (P : String → Bool) (fs : List (String × Json)) :
    (gsoFields fs).filter (fun kv => P kv.1) = gsoFields (fs.filter (fun kv => P kv.1)) := by
  induction fs with
  | nil => rfl
  | cons h t ih =>
    cases h with | mk k v =>
    cases hk : P k <;> simp [gsoFields, List.filter, hk, ih]

/-- The structural hash with a key ignored depends only on the fields other
than that key: the ignored key is deleted from the sorted top-level object
before serialization. -/
theorem objectHashCode_filter_eq (k : String) (fs1 fs2 : List (String × Json))
    (hexc : fs1.filter (fun kv => !(kv.1 == k)) = fs2.filter (fun kv => !(kv.1 == k))) :
    objectHashCode (.obj fs1) [k] = objectHashCode (.obj fs2) [k] := by
  have core : ∀ fs : List (String × Json),
      (sortFields (gsoFields fs)).filter (fun p => !(p.1 == k))
        = sortFields (gsoFields (fs.filter (fun p => !(p.1 == k)))) := by
    intro fs
    rw [filter_sortFields, filter_gsoFields (fun s => !(s == k)) fs]
  unfold objectHashCode
  simp only [List.foldl, getSortedObject, deleteKey]
  rw [core fs1, core fs2, hexc]

/-- Witness for C9 at a concrete pair of values differing only in key
order, including a nested object. -/
theorem objectHashCode_key_order_invariant_witness :
    canon (Json.obj [("x", .num 1), ("y", .obj [("a", .num 2), ("b", .num 3)])])
        = canon (Json.obj [("y", .obj [("b", .num 3), ("a", .num 2)]), ("x", .num 1)]) ∧
      objectHashCode (Json.obj [("x", .num 1), ("y", .obj [("a", .num 2), ("b", .num 3)])]) []
        = objectHashCode (Json.obj [("y", .obj [("b", .num 3), ("a", .num 2)]), ("x", .num 1)]) [] := by
  refine ⟨by rfl, objectHashCode_key_order_invariant _ _ [] (by rfl)⟩

/-! Mesh-group construction with content-based deduplication
(`createMeshGroup` / `createMeshGroups` / `createVertexBuffer` of the
glb-parser source).  The model keeps what the deduplication claims are
about: object identity, tracked by allocation counters (each `new Mesh` and
each `new VertexBuffer` gets a fresh number), the primitive-hash cache
`meshByPrimitiveHash` shared across all meshes of one parse, and the
vertex-buffer dictionary `vertexBufferDict` keyed by the sorted recognized
attribute ids.  Vertex data, index data, normals, bounds and morph targets
do not affect which objects are shared and are elided; primitives are
modelled without a draco compression extension (the uncompressed path). -/

/-- Lookup of a key in a JSON object (JavaScript property access). -/
def jlookup (j : Json) (k : String) : Option Json :=
  match j with
  | .obj fs => fs.lookup k
  | _ => none

/-- The keys of `gltfToEngineSemanticMap`: the attribute names recognized by
`createVertexBuffer`. -/
def recognizedAttributes : List String :=
  ["POSITION", "NORMAL", "TANGENT", "COLOR_0", "JOINTS_0", "WEIGHTS_0",
    "TEXCOORD_0", "TEXCOORD_1"]

/-- JavaScript string coercion of an attribute's accessor reference as used
in `attrib + ":" + attributes[attrib]` (accessor references in a glTF
document are numbers; the other branches cover the primitive coercions). -/
def jsValueStr : Json → String
  | .num n => toString n
  | .str s => s
  | .bool b => if b then "true" else "false"
  | _ => ""

/-- The `attributes` object of a primitive (empty when absent — the `for in`
loop of the source then iterates zero times). -/
def primAttributes (p : Json) : List (String × Json) :=
  match jlookup p "attributes" with
  | some (.obj afs) => afs
  | _ => []

/-- The `Semantic:accessorIndex` id list of a primitive's recognized
attributes (`attribIds` in `createVertexBuffer`). -/
def attribIds (p : Json) : List String :=
  ((primAttributes p).filter (fun kv => recognizedAttributes.contains kv.1)).map
    (fun kv => kv.1 ++ ":" ++ jsValueStr kv.2)

/-- Vertex-buffer dictionary key of a primitive: the sorted attribute ids
joined with commas (`attribIds.sort(); attribIds.join()`). -/
def vbKey (p : Json) : String :=
  String.intercalate ","
    (List.insertionSort (fun a b : String => jsStrLe a b = true) (attribIds p))

/-- The primitive's `material` property (absent for the default material). -/
def primMaterial (p : Json) : Option Json :=
  jlookup p "material"

/-- One entry of a mesh group: the built (or reused) mesh object, the
vertex buffer object it holds, and the primitive's material reference.
Objects are identified by allocation number. -/
structure MeshEntry where
  mesh : Nat
  vb : Nat
  material : Option Json

/-- Parse-wide deduplication state: the primitive-hash cache (hash to the
mesh and its vertex buffer), the vertex-buffer dictionary, and the two
allocation counters. -/
structure MGState where
  meshByPrimitiveHash : List (Int × Nat × Nat)
  vertexBufferDict : List (String × Nat)
  nextMesh : Nat
  nextVb : Nat

/-- Model of one iteration of `createMeshGroup`'s primitive loop: hash the
primitive with the material key excluded; if a mesh with that hash exists in
the cache, push it with this primitive's material; otherwise build a fresh
mesh and push it, storing it in the cache under the hash.  The two inner
branches inline `createVertexBuffer`'s deduplication: reuse the
`vertexBufferDict` entry for the primitive's sorted attribute key if
present, else allocate a fresh vertex buffer and store it under the key. -/
def createMeshGroupStep (s : MGState) (p : Json) : MGState × MeshEntry :=
  match s.meshByPrimitiveHash.lookup (objectHashCode p ["material"]) with
  | some mv => (s, ⟨mv.1, mv.2, primMaterial p⟩)
  | none =>
    match s.vertexBufferDict.lookup (vbKey p) with
    | some v =>
      (⟨(objectHashCode p ["material"], s.nextMesh, v) :: s.meshByPrimitiveHash,
          s.vertexBufferDict, s.nextMesh + 1, s.nextVb⟩,
        ⟨s.nextMesh, v, primMaterial p⟩)
    | none =>
      (⟨(objectHashCode p ["material"], s.nextMesh, s.nextVb) :: s.meshByPrimitiveHash,
          (vbKey p, s.nextVb) :: s.vertexBufferDict, s.nextMesh + 1, s.nextVb + 1⟩,
        ⟨s.nextMesh, s.nextVb, primMaterial p⟩)

/-- The primitive loop threading the shared state. -/
def createMeshGroupsAux (s : MGState) : List Json → List MeshEntry
  | [] => []
  | p :: ps =>
    (createMeshGroupStep s p).2 :: createMeshGroupsAux (createMeshGroupStep s p).1 ps

/-- Model of `createMeshGroups`: all primitives of all meshes of one parse,
in document order, against initially empty caches. -/
def createMeshGroupsModel (prims : List Json) : List MeshEntry :=
  createMeshGroupsAux ⟨[], [], 0, 0⟩ prims

theorem createMeshGroupStep_cache_stable {s : MGState} {p : Json} {h : Int}
    {v : Nat × Nat} (hl : s.meshByPrimitiveHash.lookup h = some v) :
    ((createMeshGroupStep s p).1).meshByPrimitiveHash.lookup h = some v := by
  cases hm : s.meshByPrimitiveHash.lookup (objectHashCode p ["material"]) with
  | some mv => simp [createMeshGroupStep, hm, hl]
  | none =>
    have hne : (h == objectHashCode p ["material"]) = false := by
      rw [beq_eq_false_iff_ne]
      intro hbeq
      rw [hbeq, hm] at hl
      cases hl
    cases hd : s.vertexBufferDict.lookup (vbKey p) <;>
      simp [createMeshGroupStep, hm, hd, List.lookup, hne, hl]

theorem createMeshGroupStep_cache_none {s : MGState} {p : Json} {h : Int}
    (hl : s.meshByPrimitiveHash.lookup h = none)
    (hne : h ≠ objectHashCode p ["material"]) :
    ((createMeshGroupStep s p).1).meshByPrimitiveHash.lookup h = none := by
  have hne' : (h == objectHashCode p ["material"]) = false := by
    rw [beq_eq_false_iff_ne]; exact hne
  cases hm : s.meshByPrimitiveHash.lookup (objectHashCode p ["material"]) with
  | some mv => simp [createMeshGroupStep, hm, hl]
  | none =>
    cases hd : s.vertexBufferDict.lookup (vbKey p) <;>
      simp only [createMeshGroupStep, hm, hd, List.lookup, hne'] <;> exact hl

theorem createMeshGroupStep_dict_stable {s : MGState} {p : Json} {key : String}
    {v : Nat} (hl : s.vertexBufferDict.lookup key = some v) :
    ((createMeshGroupStep s p).1).vertexBufferDict.lookup key = some v := by
  cases hm : s.meshByPrimitiveHash.lookup (objectHashCode p ["material"]) with
  | some mv => simp [createMeshGroupStep, hm, hl]
  | none =>
    cases hd : s.vertexBufferDict.lookup (vbKey p) with
    | some w => simp [createMeshGroupStep, hm, hd, hl]
    | none =>
      have hne : (key == vbKey p) = false := by
        rw [beq_eq_false_iff_ne]
        intro hbeq
        rw [hbeq, hd] at hl
        cases hl
      simp only [createMeshGroupStep, hm, hd, List.lookup, hne]
      exact hl

/-- Once the cache maps a hash to a mesh/vertex-buffer pair, every later
primitive with that hash is given exactly that pair, with its own material
reference. -/
theorem createMeshGroupsAux_entry_of_cache :
    ∀ {ps : List Json} {s : MGState} {h : Int} {m vb : Nat},
      s.meshByPrimitiveHash.lookup h = some (m, vb) →
      ∀ k p, ps.get? k = some p → objectHashCode p ["material"] = h →
        (createMeshGroupsAux s ps).get? k = some ⟨m, vb, primMaterial p⟩
  | [], _, _, _, _, _, k, p, hk, _ => by cases k <;> cases hk
  | q :: ps, s, h, m, vb, hl, k, p, hk, hh => by
    cases k with
    | zero =>
      cases hk
      show some (createMeshGroupStep s q).2 = _
      simp [createMeshGroupStep, hh, hl]
    | succ k' =>
      show (createMeshGroupsAux (createMeshGroupStep s q).1 ps).get? k' = _
      exact createMeshGroupsAux_entry_of_cache
        (createMeshGroupStep_cache_stable hl) k' p hk hh

theorem createMeshGroupStep_material (s : MGState) (p : Json) :
    ((createMeshGroupStep s p).2).material = primMaterial p := by
  cases hm : s.meshByPrimitiveHash.lookup (objectHashCode p ["material"]) with
  | some mv => simp [createMeshGroupStep, hm]
  | none =>
    cases hd : s.vertexBufferDict.lookup (vbKey p) <;>
      simp [createMeshGroupStep, hm, hd]

/-- After a primitive is processed, the cache maps its hash to the mesh and
vertex buffer of its entry. -/
theorem createMeshGroupStep_cache_after (s : MGState) (p : Json) :
    ((createMeshGroupStep s p).1).meshByPrimitiveHash.lookup
        (objectHashCode p ["material"])
      = some ((createMeshGroupStep s p).2.mesh, (createMeshGroupStep s p).2.vb) := by
  cases hm : s.meshByPrimitiveHash.lookup (objectHashCode p ["material"]) with
  | some mv => simp [createMeshGroupStep, hm]
  | none =>
    cases hd : s.vertexBufferDict.lookup (vbKey p) <;>
      simp [createMeshGroupStep, hm, hd, List.lookup]

/-- Any two primitives of one parse with equal deduplication hashes share
one mesh object (hence one vertex buffer), each keeping its own material
reference. -/
theorem createMeshGroupsAux_shared_hash :
    ∀ {ps : List Json} {s : MGState} {i j : Nat} {pi pj : Json},
      i < j → ps.get? i = some pi → ps.get? j = some pj →
      objectHashCode pi ["material"] = objectHashCode pj ["material"] →
      ∃ m vb, (createMeshGroupsAux s ps).get? i = some ⟨m, vb, primMaterial pi⟩ ∧
        (createMeshGroupsAux s ps).get? j = some ⟨m, vb, primMaterial pj⟩
  | [], _, i, _, _, _, _, hi, _, _ => by cases i <;> cases hi
  | q :: ps, s, 0, j, pi, pj, hij, hi, hj, hh => by
    cases hi
    cases j with
    | zero => exact absurd hij (by omega)
    | succ j' =>
      refine ⟨(createMeshGroupStep s q).2.mesh, (createMeshGroupStep s q).2.vb, ?_, ?_⟩
      · show some (createMeshGroupStep s q).2 = _
        rw [← createMeshGroupStep_material s q]
      show (createMeshGroupsAux (createMeshGroupStep s q).1 ps).get? j' = _
      exact createMeshGroupsAux_entry_of_cache
        (createMeshGroupStep_cache_after s q) j' pj hj hh.symm
  | q :: ps, s, Nat.succ i', Nat.succ j', pi, pj, hij, hi, hj, hh => by
    show ∃ m vb,
      (createMeshGroupsAux (createMeshGroupStep s q).1 ps).get? i' = _ ∧
        (createMeshGroupsAux (createMeshGroupStep s q).1 ps).get? j' = _
    exact createMeshGroupsAux_shared_hash (s := (createMeshGroupStep s q).1)
      (by omega) hi hj hh

/-- C4: within one parse, two mesh primitives that are identical except for
their material field have equal deduplication hashes (the hash excludes the
material key), and the later one reuses the mesh object already built for
the earlier one — one shared geometry, with each entry keeping its own
material association. -/
theorem mesh_dedup_ignores_material (prims : List Json) (i j : Nat)
    (pi pj : Json) (fsi fsj : List (String × Json))
    (hij : i < j)
    (hgi : prims.get? i = some pi) (hgj : prims.get? j = some pj)
    (hpi : pi = .obj fsi) (hpj : pj = .obj fsj)
    (hexc : fsi.filter (fun kv => !(kv.1 == "material"))
      = fsj.filter (fun kv => !(kv.1 == "material"))) :
    objectHashCode pi ["material"] = objectHashCode pj ["material"] ∧
      ∃ m vb, (createMeshGroupsModel prims).get? i = some ⟨m, vb, primMaterial pi⟩ ∧
        (createMeshGroupsModel prims).get? j = some ⟨m, vb, primMaterial pj⟩ := by
  have hh : objectHashCode pi ["material"] = objectHashCode pj ["material"] := by
    rw [hpi, hpj]
    exact objectHashCode_filter_eq "material" fsi fsj hexc
  exact ⟨hh, createMeshGroupsAux_shared_hash hij hgi hgj hh⟩

/-- Once the vertex-buffer dictionary maps a key to a buffer, every later
primitive that reaches mesh construction (its hash misses the cache) with
that attribute key receives exactly that buffer. -/
theorem createMeshGroupsAux_vb_of_dict :
    ∀ {ps : List Json} {s : MGState} {key : String} {v : Nat},
      s.vertexBufferDict.lookup key = some v →
      ∀ k p, ps.get? k = some p → vbKey p = key →
        s.meshByPrimitiveHash.lookup (objectHashCode p ["material"]) = none →
        (∀ l q, l < k → ps.get? l = some q →
          objectHashCode q ["material"] ≠ objectHashCode p ["material"]) →
        ∃ m, (createMeshGroupsAux s ps).get? k = some ⟨m, v, primMaterial p⟩
  | [], _, _, _, _, k, p, hk, _, _, _ => by cases k <;> cases hk
  | q :: ps, s, key, v, hdict, k, p, hk, hkey, hmiss, hfresh => by
    cases k with
    | zero =>
      cases hk
      refine ⟨s.nextMesh, ?_⟩
      show some (createMeshGroupStep s q).2 = _
      rw [← hkey] at hdict
      simp [createMeshGroupStep, hmiss, hdict]
    | succ k' =>
      obtain ⟨m, hm⟩ := createMeshGroupsAux_vb_of_dict
        (createMeshGroupStep_dict_stable hdict) k' p hk hkey
        (createMeshGroupStep_cache_none hmiss
          (Ne.symm (hfresh 0 q (Nat.succ_pos k') rfl)))
        (fun l q' hl hq' => hfresh (l + 1) q' (by omega) hq')
      exact ⟨m, hm⟩

/-- Any two primitives of one parse that both reach mesh construction (their
hashes have no earlier occurrence and miss the incoming cache) and have the
same sorted recognized-attribute key share one vertex buffer object. -/
theorem createMeshGroupsAux_fresh_same_key :
    ∀ {ps : List Json} {s : MGState} {i j : Nat} {pi pj : Json},
      i < j → ps.get? i = some pi → ps.get? j = some pj →
      s.meshByPrimitiveHash.lookup (objectHashCode pi ["material"]) = none →
      s.meshByPrimitiveHash.lookup (objectHashCode pj ["material"]) = none →
      (∀ l q, l < i → ps.get? l = some q →
        objectHashCode q ["material"] ≠ objectHashCode pi ["material"]) →
      (∀ l q, l < j → ps.get? l = some q →
        objectHashCode q ["material"] ≠ objectHashCode pj ["material"]) →
      vbKey pi = vbKey pj →
      ∃ m1 m2 v, (createMeshGroupsAux s ps).get? i = some ⟨m1, v, primMaterial pi⟩ ∧
        (createMeshGroupsAux s ps).get? j = some ⟨m2, v, primMaterial pj⟩
  | [], _, i, _, _, _, _, hi, _, _, _, _, _, _ => by cases i <;> cases hi
  | q :: ps, s, 0, j, pi, pj, hij, hi, hj, hmi, hmj, hfi, hfj, hkey => by
    cases hi
    cases j with
    | zero => exact absurd hij (by omega)
    | succ j' =>
      have hfreshj : ∀ l q', l < j' → ps.get? l = some q' →
          objectHashCode q' ["material"] ≠ objectHashCode pj ["material"] :=
        fun l q' hl hq' => hfj (l + 1) q' (by omega) hq'
      have hmissj : ((createMeshGroupStep s q).1).meshByPrimitiveHash.lookup
          (objectHashCode pj ["material"]) = none :=
        createMeshGroupStep_cache_none hmj
          (Ne.symm (hfj 0 q (Nat.succ_pos j') rfl))
      cases hd : s.vertexBufferDict.lookup (vbKey q) with
      | some v =>
        have hdict' : ((createMeshGroupStep s q).1).vertexBufferDict.lookup (vbKey q)
            = some v := createMeshGroupStep_dict_stable hd
        obtain ⟨m2, hm2⟩ := createMeshGroupsAux_vb_of_dict hdict' j' pj hj
          hkey.symm hmissj hfreshj
        refine ⟨s.nextMesh, m2, v, ?_, hm2⟩
        show some (createMeshGroupStep s q).2 = _
        simp [createMeshGroupStep, hmi, hd]
      | none =>
        have hdict' : ((createMeshGroupStep s q).1).vertexBufferDict.lookup (vbKey q)
            = some s.nextVb := by
          simp [createMeshGroupStep, hmi, hd, List.lookup]
        obtain ⟨m2, hm2⟩ := createMeshGroupsAux_vb_of_dict hdict' j' pj hj
          hkey.symm hmissj hfreshj
        refine ⟨s.nextMesh, m2, s.nextVb, ?_, hm2⟩
        show some (createMeshGroupStep s q).2 = _
        simp [createMeshGroupStep, hmi, hd]
  | q :: ps, s, Nat.succ i', Nat.succ j', pi, pj, hij, hi, hj, hmi, hmj, hfi, hfj, hkey => by
    show ∃ m1 m2 v,
      (createMeshGroupsAux (createMeshGroupStep s q).1 ps).get? i' = _ ∧
        (createMeshGroupsAux (createMeshGroupStep s q).1 ps).get? j' = _
    exact createMeshGroupsAux_fresh_same_key (s := (createMeshGroupStep s q).1)
      (by omega) hi hj
      (createMeshGroupStep_cache_none hmi
        (Ne.symm (hfi 0 q (Nat.succ_pos i') rfl)))
      (createMeshGroupStep_cache_none hmj
        (Ne.symm (hfj 0 q (Nat.succ_pos j') rfl)))
      (fun l q' hl hq' => hfi (l + 1) q' (by omega) hq')
      (fun l q' hl hq' => hfj (l + 1) q' (by omega) hq')
      hkey

/-- C10 (amended): within one parse, two primitives that both reach
vertex-buffer construction (their deduplication hashes have no earlier
occurrence, so neither is served from the primitive-hash mesh cache) and
whose recognized attributes map to the same sorted semantic:accessorIndex
key receive the very same vertex buffer object, even when their indices or
materials differ. -/
theorem vertex_buffer_dedup_by_attributes (prims : List Json) (i j : Nat)
    (pi pj : Json) (hij : i < j)
    (hgi : prims.get? i = some pi) (hgj : prims.get? j = some pj)
    (hfi : ∀ l q, l < i → prims.get? l = some q →
      objectHashCode q ["material"] ≠ objectHashCode pi ["material"])
    (hfj : ∀ l q, l < j → prims.get? l = some q →
      objectHashCode q ["material"] ≠ objectHashCode pj ["material"])
    (hkey : vbKey pi = vbKey pj) :
    ∃ m1 m2 v, (createMeshGroupsModel prims).get? i = some ⟨m1, v, primMaterial pi⟩ ∧
      (createMeshGroupsModel prims).get? j = some ⟨m2, v, primMaterial pj⟩ :=
  createMeshGroupsAux_fresh_same_key hij hgi hgj rfl rfl hfi hfj hkey

/-- First primitive of the C10 hash collision: POSITION accessor 0 with a
twelve-character extras string. -/
def primCollA : Json :=
  .obj [("attributes", .obj [("POSITION", .num 0)]), ("extras", .str "RRRRRRRRRRRR")]

/-- Second primitive of the C10 hash collision: POSITION accessor 1 with an
extras string chosen so that the whole primitive hashes (excluding the
material key) to the same 32-bit value as `primCollA`. -/
def primCollB : Json :=
  .obj [("attributes", .obj [("POSITION", .num 1)]), ("extras", .str "RRRRRT]DYTWR")]

/-- Third primitive: the same recognized attributes as `primCollB` and no
extras, so its hash differs from both. -/
def primCollC : Json :=
  .obj [("attributes", .obj [("POSITION", .num 1)])]

/-- Counterexample to C10 as stated: `primCollB` collides with `primCollA`
in the deduplication hash and therefore reuses `primCollA`'s mesh — with the
vertex buffer built for POSITION accessor 0 — while `primCollC`, with the
same recognized-attribute key list as `primCollB` (POSITION accessor 1),
builds its own fresh vertex buffer.  Two primitives with the same sorted
semantic:accessorIndex list thus end up with different vertex buffer
objects. -/
theorem vertex_buffer_dedup_counterexample :
    vbKey primCollB = vbKey primCollC ∧
    objectHashCode primCollA ["material"] = objectHashCode primCollB ["material"] ∧
    ((createMeshGroupsModel [primCollA, primCollB, primCollC]).get? 1).map
        (fun e => e.vb) = some 0 ∧
    ((createMeshGroupsModel [primCollA, primCollB, primCollC]).get? 2).map
        (fun e => e.vb) = some 1 := by
  exact ⟨rfl, by decide, by decide, by decide⟩

/-- Primitives for the C10 amended-claim witness: same attributes, different
indices. -/
def primIdxA : Json :=
  .obj [("attributes", .obj [("POSITION", .num 0)]), ("indices", .num 0)]

/-- Same attributes as `primIdxA` but a different index accessor. -/
def primIdxB : Json :=
  .obj [("attributes", .obj [("POSITION", .num 0)]), ("indices", .num 1)]

/-- Witness for the amended C10: two primitives with the same attributes but
different index accessors (so different hashes — both reach construction)
share one vertex buffer. -/
theorem vertex_buffer_dedup_by_attributes_witness :
    ∃ m1 m2 v,
      (createMeshGroupsModel [primIdxA, primIdxB]).get? 0
          = some ⟨m1, v, primMaterial primIdxA⟩ ∧
        (createMeshGroupsModel [primIdxA, primIdxB]).get? 1
          = some ⟨m2, v, primMaterial primIdxB⟩ :=
  vertex_buffer_dedup_by_attributes [primIdxA, primIdxB] 0 1 primIdxA primIdxB
    (by omega) rfl rfl
    (fun l q hl hq => absurd hl (by omega))
    (fun l q hl hq => by
      have hl0 : l = 0 := by omega
      subst hl0
      cases hq
      decide)
    rfl

/-- Witness for C4: two primitives identical except for their material
indices (0 and 1) share one mesh and one vertex buffer. -/
theorem mesh_dedup_ignores_material_witness :
    objectHashCode (Json.obj [("attributes", .obj [("POSITION", .num 0)]), ("material", .num 0)]) ["material"]
        = objectHashCode (Json.obj [("attributes", .obj [("POSITION", .num 0)]), ("material", .num 1)]) ["material"] ∧
      ∃ m vb,
        (createMeshGroupsModel
            [Json.obj [("attributes", .obj [("POSITION", .num 0)]), ("material", .num 0)],
              Json.obj [("attributes", .obj [("POSITION", .num 0)]), ("material", .num 1)]]).get? 0
          = some ⟨m, vb, some (.num 0)⟩ ∧
        (createMeshGroupsModel
            [Json.obj [("attributes", .obj [("POSITION", .num 0)]), ("material", .num 0)],
              Json.obj [("attributes", .obj [("POSITION", .num 0)]), ("material", .num 1)]]).get? 1
          = some ⟨m, vb, some (.num 1)⟩ := by
  have h := mesh_dedup_ignores_material
    [Json.obj [("attributes", .obj [("POSITION", .num 0)]), ("material", .num 0)],
      Json.obj [("attributes", .obj [("POSITION", .num 0)]), ("material", .num 1)]]
    0 1 _ _
    [("attributes", .obj [("POSITION", .num 0)]), ("material", .num 0)]
    [("attributes", .obj [("POSITION", .num 0)]), ("material", .num 1)]
    (by omega) rfl rfl rfl rfl (by rfl)
  exact ⟨h.1, h.2⟩

/-! Binary container (GLB) parsing: `parseGlb`, `parseChunk` and the
synchronous entry point `GlbParser.parse` of the glb-parser source.  Bytes
are lists of naturals below 256; a `DataView.getUint32(..., true)` read is
`readUint32LE`, returning `none` where the DataView would throw a
RangeError. -/

/-- Little-endian 32-bit read at a byte offset; `none` models the RangeError
thrown by `DataView.getUint32` when fewer than four bytes remain. -/
def readUint32LE (bytes : List Nat) (off : Nat) : Option Nat :=
  match bytes.get? off, bytes.get? (off + 1), bytes.get? (off + 2), bytes.get? (off + 3) with
  | some b0, some b1, some b2, some b3 => some (b0 + 256 * (b1 + 256 * (b2 + 256 * b3)))
  | _, _, _, _ => none

/-- One chunk record as pushed by the chunk loop:
`\x7b length: chunkLength, type: chunkType, data: chunkData \x7d`. -/
structure GlbChunk where
  length : Nat
  type : Nat
  data : List Nat
deriving DecidableEq

/-- Outcome of the chunk loop: the collected chunk list, or an exception
(the loop `throw`s on a bad chunk length, and `DataView` reads can throw
RangeError). -/
inductive ChunksOutcome where
  | ok (chunks : List GlbChunk)
  | thrown (msg : String)
deriving DecidableEq

/-- The `while (offset < length)` chunk loop of `parseGlb`.  Each iteration
reads `[chunkLength:u32][chunkType:u32][chunkLength bytes]` and advances
`offset` by `chunkLength + 8`; a chunk extending past the end of the data
raises an exception (`throw new Error(...)` in the source, unlike every
other validation in `parseGlb`, which reports through the callback).  The
loop is driven by an iteration budget so that it is structurally recursive;
every iteration advances `offset` by at least 8, so a budget of `length`
iterations is never exhausted (`readChunksAux_congr_fuel` shows the result
does not depend on the budget once it is at least `(length - offset) / 8`
rounded up). -/
def readChunksAux (bytes : List Nat) (length : Nat) : Nat → Nat → ChunksOutcome
  | 0, offset =>
    if offset < length then .thrown "unreachable: iteration budget exhausted" else .ok []
  | fuel + 1, offset =>
    if offset < length then
      match readUint32LE bytes offset with
      | none => .thrown "RangeError"
      | some chunkLength =>
        if bytes.length < offset + chunkLength + 8 then
          .thrown ("Invalid chunk length found in glb. Found " ++ toString chunkLength)
        else
          match readUint32LE bytes (offset + 4) with
          | none => .thrown "RangeError"
          | some chunkType =>
            match readChunksAux bytes length fuel (offset + chunkLength + 8) with
            | .ok rest =>
              .ok (⟨chunkLength, chunkType, (bytes.drop (offset + 8)).take chunkLength⟩ :: rest)
            | .thrown m => .thrown m
    else .ok []

/-- The iteration budget is irrelevant as soon as it covers the remaining
length at eight bytes per iteration — in particular the budget `length`
used by `readChunks` below. -/
theorem readChunksAux_congr_fuel (bytes : List Nat) (length : Nat) :
    ∀ (f g offset : Nat), length ≤ offset + 8 * f → length ≤ offset + 8 * g →
      readChunksAux bytes length f offset = readChunksAux bytes length g offset
  | 0, 0, offset, hf, hg => rfl
  | 0, g + 1, offset, hf, hg => by
    have hno : ¬ offset < length := by omega
    simp [readChunksAux, hno]
  | f + 1, 0, offset, hf, hg => by
    have hno : ¬ offset < length := by omega
    simp [readChunksAux, hno]
  | f + 1, g + 1, offset, hf, hg => by
    by_cases hlt : offset < length
    · show (if offset < length then _ else _) = (if offset < length then _ else _)
      rw [if_pos hlt, if_pos hlt]
      cases h0 : readUint32LE bytes offset with
      | none => rfl
      | some chunkLength =>
        dsimp only
        by_cases hb : bytes.length < offset + chunkLength + 8
        · simp only [if_pos hb]
        · simp only [if_neg hb]
          cases h4 : readUint32LE bytes (offset + 4) with
          | none => rfl
          | some chunkType =>
            dsimp only
            rw [readChunksAux_congr_fuel bytes length f g (offset + chunkLength + 8)
              (by omega) (by omega)]
    · show (if offset < length then _ else _) = (if offset < length then _ else _)
      rw [if_neg hlt, if_neg hlt]

/-- The chunk loop of `parseGlb`, starting after the twelve-byte header. -/
def readChunks (bytes : List Nat) (length : Nat) : ChunksOutcome :=
  readChunksAux bytes length length 12

/-- Outcome of `parseGlb`: the callback receives either the chunk pair (the
gltf chunk plus an optional binary chunk) or a descriptive error string; or
an exception escapes the function without the callback being invoked. -/
inductive GlbResult where
  | ok (gltfChunk : List Nat) (binaryChunk : Option (List Nat))
  | err (msg : String)
  | thrown (msg : String)
deriving DecidableEq

/-- Hexadecimal rendering of `Number.prototype.toString(16)` (lowercase). -/
def natToHex (n : Nat) : String :=
  String.mk (Nat.toDigits 16 n)

/-- The magic-number error message of `parseGlb`, naming the expected value
and the found value. -/
def magicErrMsg (found : Nat) : String :=
  "Invalid magic number found in glb header. Expected 0x" ++ "46546C67"
    ++ ", found 0x" ++ natToHex found

/-- The version error message of `parseGlb`. -/
def versionErrMsg (found : Nat) : String :=
  "Invalid version number found in glb header. Expected " ++ "2"
    ++ ", found " ++ toString found

/-- The total-length error message of `parseGlb`. -/
def lengthErrMsg (found : Nat) : String :=
  "Invalid length found in glb header. Found " ++ toString found

/-- The chunk-count error message of `parseGlb`. -/
def chunkCountErrMsg : String :=
  "Invalid number of chunks found in glb file."

/-- The first-chunk-type error message of `parseGlb`. -/
def chunkType0ErrMsg (found : Nat) : String :=
  "Invalid chunk type found in glb file. Expected 0x" ++ "4E4F534A"
    ++ ", found 0x" ++ natToHex found

/-- The second-chunk-type error message of `parseGlb`. -/
def chunkType1ErrMsg (found : Nat) : String :=
  "Invalid chunk type found in glb file. Expected 0x" ++ "004E4942"
    ++ ", found 0x" ++ natToHex found

/-- The chunk validation tail of `parseGlb`: exactly 1 or 2 chunks, the
first chunk's type must be JSON (0x4E4F534A) and — when present — the second
chunk's type must be binary (0x004E4942).  On success the callback receives
the first chunk's data and the second chunk's data or null.  The
empty-chunk-list inner case is unreachable (a zero count already failed the
count check) and returns the same count error for totality. -/
def validateChunks (chunks : List GlbChunk) : GlbResult :=
  if chunks.length ≠ 1 ∧ chunks.length ≠ 2 then .err chunkCountErrMsg
  else
    match chunks with
    | [] => .err chunkCountErrMsg
    | c0 :: rest =>
      if c0.type ≠ 0x4E4F534A then .err (chunkType0ErrMsg c0.type)
      else
        match rest with
        | [] => .ok c0.data none
        | c1 :: _ =>
          if c1.type ≠ 0x004E4942 then .err (chunkType1ErrMsg c1.type)
          else .ok c0.data (some c1.data)

/-- Model of `parseGlb`: read the three header words (all three reads happen
before any validation), validate magic, version and total length through the
error callback, run the chunk loop, and validate the chunks
(`validateChunks`). -/
def parseGlb (glbData : List Nat) : GlbResult :=
  match readUint32LE glbData 0, readUint32LE glbData 4, readUint32LE glbData 8 with
  | some magic, some version, some length =>
    if magic ≠ 0x46546C67 then .err (magicErrMsg magic)
    else if version ≠ 2 then .err (versionErrMsg version)
    else if length = 0 ∨ glbData.length < length then .err (lengthErrMsg length)
    else
      match readChunks glbData length with
      | .thrown m => .thrown m
      | .ok chunks => validateChunks chunks
  | _, _, _ => .thrown "RangeError"

theorem readUint32LE_isSome {bytes : List Nat} {off : Nat}
    (h : off + 4 ≤ bytes.length) : ∃ w, readUint32LE bytes off = some w := by
  have h0 : off < bytes.length := by omega
  have h1 : off + 1 < bytes.length := by omega
  have h2 : off + 2 < bytes.length := by omega
  have h3 : off + 3 < bytes.length := by omega
  unfold readUint32LE
  rw [List.get?_eq_get h0, List.get?_eq_get h1, List.get?_eq_get h2, List.get?_eq_get h3]
  exact ⟨_, rfl⟩

/-- C1: for binary-container input of at least header size, if the first
uint32 (little-endian) is not 0x46546C67 or the second is not 2, `parseGlb`
fails through the error callback with a message naming the expected value
and the found value, and no chunk result is produced. -/
theorem glb_header_validation (bytes : List Nat) (m v : Nat)
    (hlen : 12 ≤ bytes.length)
    (hm : readUint32LE bytes 0 = some m) (hv : readUint32LE bytes 4 = some v)
    (hbad : m ≠ 0x46546C67 ∨ v ≠ 2) :
    (∀ g b, parseGlb bytes ≠ .ok g b) ∧
    (m ≠ 0x46546C67 →
      parseGlb bytes = .err (magicErrMsg m) ∧
      ∃ pre mid, magicErrMsg m = pre ++ "46546C67" ++ mid ++ natToHex m) ∧
    (m = 0x46546C67 → v ≠ 2 →
      parseGlb bytes = .err (versionErrMsg v) ∧
      ∃ pre mid, versionErrMsg v = pre ++ "2" ++ mid ++ toString v) := by
  obtain ⟨len, hl⟩ := readUint32LE_isSome (show 8 + 4 ≤ bytes.length from hlen)
  have hres : parseGlb bytes =
      (if m = 0x46546C67 then .err (versionErrMsg v) else .err (magicErrMsg m)) := by
    unfold parseGlb
    rw [hm, hv, hl]
    by_cases hmagic : m = 0x46546C67
    · have hv2 : v ≠ 2 := by tauto
      simp [hmagic, hv2]
    · simp [hmagic]
  refine ⟨?_, ?_, ?_⟩
  · intro g b hc
    rw [hres] at hc
    by_cases hmagic : m = 0x46546C67 <;> simp [hmagic] at hc
  · intro hmne
    rw [hres, if_neg hmne]
    exact ⟨rfl, "Invalid magic number found in glb header. Expected 0x",
      ", found 0x", rfl⟩
  · intro hmeq hv2
    rw [hres, if_pos hmeq]
    exact ⟨rfl, "Invalid version number found in glb header. Expected ",
      ", found ", rfl⟩

/-- A header-sized container of zero bytes: magic 0x00000000. -/
def badMagicGlb : List Nat := List.replicate 12 0

/-- A container with correct magic but version 1. -/
def badVersionGlb : List Nat :=
  [0x67, 0x6C, 0x54, 0x46, 1, 0, 0, 0, 12, 0, 0, 0]

/-- Witness for C1: magic 0x00000000 fails naming the expected 0x46546C67
and the found 0; version 1 fails naming the expected 2 and the found 1. -/
theorem glb_header_validation_witness :
    parseGlb badMagicGlb = .err (magicErrMsg 0) ∧
    (∃ pre mid, magicErrMsg 0 = pre ++ "46546C67" ++ mid ++ natToHex 0) ∧
    parseGlb badVersionGlb = .err (versionErrMsg 1) ∧
    (∃ pre mid, versionErrMsg 1 = pre ++ "2" ++ mid ++ toString 1) := by
  have h1 := glb_header_validation badMagicGlb 0 0 (by decide) (by decide)
    (by decide) (Or.inl (by decide))
  have h2 := glb_header_validation badVersionGlb 0x46546C67 1 (by decide)
    (by decide) (by decide) (Or.inr (by decide))
  obtain ⟨e1, e2⟩ := h1.2.1 (by decide)
  obtain ⟨e3, e4⟩ := h2.2.2 rfl (by decide)
  exact ⟨e1, e2, e3, e4⟩

/-- C2: for a container whose header is valid, the chunk list collected up
to the declared total length must have exactly 1 or 2 entries, the first
chunk must have the JSON type 0x4E4F534A, a second chunk — if present —
must have the binary type 0x004E4942; a single valid JSON chunk succeeds
with a null binary chunk and a JSON/binary pair succeeds with both. -/
theorem glb_chunk_validation (bytes : List Nat) (len : Nat)
    (hm : readUint32LE bytes 0 = some 0x46546C67)
    (hv : readUint32LE bytes 4 = some 2)
    (hl : readUint32LE bytes 8 = some len)
    (hpos : len ≠ 0) (hbound : len ≤ bytes.length)
    (cs : List GlbChunk) (hcs : readChunks bytes len = .ok cs) :
    ((cs.length ≠ 1 ∧ cs.length ≠ 2) → parseGlb bytes = .err chunkCountErrMsg) ∧
    (∀ c0 rest, cs = c0 :: rest → rest.length ≤ 1 → c0.type ≠ 0x4E4F534A →
      parseGlb bytes = .err (chunkType0ErrMsg c0.type)) ∧
    (∀ c0 c1, cs = [c0, c1] → c0.type = 0x4E4F534A → c1.type ≠ 0x004E4942 →
      parseGlb bytes = .err (chunkType1ErrMsg c1.type)) ∧
    (∀ c0, cs = [c0] → c0.type = 0x4E4F534A → parseGlb bytes = .ok c0.data none) ∧
    (∀ c0 c1, cs = [c0, c1] → c0.type = 0x4E4F534A → c1.type = 0x004E4942 →
      parseGlb bytes = .ok c0.data (some c1.data)) := by
  have hres : parseGlb bytes = validateChunks cs := by
    unfold parseGlb
    rw [hm, hv, hl]
    dsimp only
    have hg : ¬ ((len : Nat) = 0 ∨ bytes.length < len) := by omega
    rw [if_neg (by decide), if_neg (by decide), if_neg hg, hcs]
  refine ⟨?_, ?_, ?_, ?_, ?_⟩
  · intro hcount
    rw [hres]
    unfold validateChunks
    rw [if_pos hcount]
  · rintro c0 rest rfl hrest ht0
    rw [hres]
    unfold validateChunks
    have hcount : ¬ ((c0 :: rest).length ≠ 1 ∧ (c0 :: rest).length ≠ 2) := by
      simp only [List.length_cons]
      omega
    rw [if_neg hcount]
    simp only [ne_eq, ht0, not_false_eq_true, if_pos]
  · rintro c0 c1 rfl ht0 ht1
    rw [hres]
    unfold validateChunks
    simp [ht0, ht1]
  · rintro c0 rfl ht0
    rw [hres]
    unfold validateChunks
    simp [ht0]
  · rintro c0 c1 rfl ht0 ht1
    rw [hres]
    unfold validateChunks
    simp [ht0, ht1]

/-- A container holding exactly one JSON chunk of one byte. -/
def oneChunkGlb : List Nat :=
  [0x67, 0x6C, 0x54, 0x46, 2, 0, 0, 0, 21, 0, 0, 0,
    1, 0, 0, 0, 0x4A, 0x53, 0x4F, 0x4E, 0x7B]

/-- A container holding three (empty JSON) chunks. -/
def threeChunkGlb : List Nat :=
  [0x67, 0x6C, 0x54, 0x46, 2, 0, 0, 0, 36, 0, 0, 0,
    0, 0, 0, 0, 0x4A, 0x53, 0x4F, 0x4E,
    0, 0, 0, 0, 0x4A, 0x53, 0x4F, 0x4E,
    0, 0, 0, 0, 0x4A, 0x53, 0x4F, 0x4E]

/-- Witness for C2: a three-chunk container fails with the chunk-count
error; a single-JSON-chunk container succeeds with a null binary chunk. -/
theorem glb_chunk_validation_witness :
    parseGlb threeChunkGlb = .err chunkCountErrMsg ∧
    parseGlb oneChunkGlb = .ok [0x7B] none := by
  have h3 := glb_chunk_validation threeChunkGlb 36 (by decide) (by decide)
    (by decide) (by decide) (by decide)
    [⟨0, 0x4E4F534A, []⟩, ⟨0, 0x4E4F534A, []⟩, ⟨0, 0x4E4F534A, []⟩] (by decide)
  have h1 := glb_chunk_validation oneChunkGlb 21 (by decide) (by decide)
    (by decide) (by decide) (by decide) [⟨1, 0x4E4F534A, [0x7B]⟩] (by decide)
  exact ⟨h3.1 (by decide), h1.2.2.2.1 ⟨1, 0x4E4F534A, [0x7B]⟩ rfl (by decide)⟩

/-- Outcome of the synchronous entry point at the container stage. -/
inductive SyncParseOutcome where
  | proceeded (gltfChunk : List Nat) (binaryChunk : Option (List Nat))
  | loggedNull (msg : String)
  | raised (msg : String)
deriving DecidableEq

/-- Model of the container stage of the synchronous entry point
`GlbParser.parse` for a `.glb` filename: `parseChunk` dispatches to
`parseGlb`; an error delivered through the callback is logged with
`console.error` and the function falls through to `return result` with
`result` still null (`loggedNull`); an exception thrown inside `parseGlb`
propagates out of `GlbParser.parse`, which has no try/catch (`raised`).
`proceeded` stands for the parse continuing into the later stages (JSON
decode and resource construction), which are beyond this model — the claim
is decided at the container stage. -/
def glbParserParseSyncGlb (data : List Nat) : SyncParseOutcome :=
  match parseGlb data with
  | .ok g b => .proceeded g b
  | .err m => .loggedNull m
  | .thrown m => .raised m

/-- C7 (amended): every malformed input that `parseGlb` reports through the
error callback is logged and yields a null result, and the synchronous
entry point raises an exception exactly when `parseGlb` throws one (which it
does for a chunk length extending past the end of the supplied data, and
for reads past the end of the buffer). -/
theorem sync_parse_logs_callback_errors (data : List Nat) (msg : String) :
    (parseGlb data = .err msg → glbParserParseSyncGlb data = .loggedNull msg) ∧
    (glbParserParseSyncGlb data = .raised msg ↔ parseGlb data = .thrown msg) := by
  cases h : parseGlb data <;> simp [glbParserParseSyncGlb, h]

/-- Witness for the amended C7: a bad-magic container is logged and yields
the null result. -/
theorem sync_parse_logs_callback_errors_witness :
    parseGlb badMagicGlb = .err (magicErrMsg 0) ∧
    glbParserParseSyncGlb badMagicGlb = .loggedNull (magicErrMsg 0) :=
  ⟨by decide, (sync_parse_logs_callback_errors badMagicGlb (magicErrMsg 0)).1 (by decide)⟩

/-- A container with a valid header whose single chunk declares a length
(9999) extending far past the end of the supplied twenty bytes. -/
def overflowChunkGlb : List Nat :=
  [0x67, 0x6C, 0x54, 0x46, 2, 0, 0, 0, 20, 0, 0, 0, 0x0F, 0x27, 0, 0, 0, 0, 0, 0]

/-- Counterexample to C7 as stated: for a binary container that declares a
chunk length extending past the end of the supplied data, the synchronous
entry point does not log-and-return-null; the `throw new Error` inside the
chunk loop propagates out of `GlbParser.parse`. -/
theorem sync_parse_throws_on_overlong_chunk :
    glbParserParseSyncGlb overflowChunkGlb
        = .raised ("Invalid chunk length found in glb. Found " ++ toString 9999) ∧
      ∀ m, glbParserParseSyncGlb overflowChunkGlb ≠ .loggedNull m := by
  refine ⟨by decide, fun m h => ?_⟩
  have h0 : glbParserParseSyncGlb overflowChunkGlb
      = .raised ("Invalid chunk length found in glb. Found " ++ toString 9999) := by
    decide
  rw [h0] at h
  cases h

/-! Accessor reading (`getAccessorData`, `getNumComponents`,
`getComponentDataType`).  Model notes: component storage is modelled at
element granularity — one buffer element per component — with byte offsets
measured in components (exact for the one-byte component types 5120/5121
used by all concrete inputs here); element values are integers, and storing
a JavaScript `undefined` (an out-of-range typed-array read) into an
integer-typed array yields 0.  `getAccessorData` never reads a buffer
view's `byteStride`, so buffer views carry only their buffer and offset. -/

/-- Model of `getNumComponents(accessorType)`: the switch over the glTF
element-type names, 3 by default — also for `undefined` (`none`), which the
source produces for the sparse values accessor by reading the nonexistent
field `gltfAccessor.scalar`. -/
def getNumComponents (accessorType : Option String) : Nat :=
  match accessorType with
  | some "SCALAR" => 1
  | some "VEC2" => 2
  | some "VEC3" => 3
  | some "VEC4" => 4
  | some "MAT2" => 4
  | some "MAT3" => 9
  | some "MAT4" => 16
  | _ => 3

/-- The seven typed-array constructors returned by
`getComponentDataType`. -/
inductive ComponentArrayType where
  | int8
  | uint8
  | int16
  | uint16
  | int32
  | uint32
  | float32
deriving DecidableEq

/-- Model of `getComponentDataType(componentType)`: the switch over the
glTF componentType codes 5120–5126; unknown codes give `null` (`none`). -/
def getComponentDataType (componentType : Nat) : Option ComponentArrayType :=
  if componentType = 5120 then some .int8
  else if componentType = 5121 then some .uint8
  else if componentType = 5122 then some .int16
  else if componentType = 5123 then some .uint16
  else if componentType = 5124 then some .int32
  else if componentType = 5125 then some .uint32
  else if componentType = 5126 then some .float32
  else none

/-- A resolved buffer view as handed to `getAccessorData`: a view into an
underlying buffer (`.buffer` and `.byteOffset` of the Uint8Array built by
`parseBufferViewsAsync`). -/
structure BufferViewM where
  buffer : List Int
  byteOffset : Nat

/-- The `sparse.indices` descriptor: buffer view, optional offset, and the
index component type. -/
structure SparseIndicesM where
  bufferView : Nat
  byteOffset : Option Nat
  componentType : Nat

/-- The `sparse.values` descriptor: buffer view and optional offset. -/
structure SparseValuesM where
  bufferView : Nat
  byteOffset : Option Nat

/-- The `sparse` descriptor of an accessor. -/
structure SparseM where
  count : Nat
  indices : SparseIndicesM
  values : SparseValuesM

/-- A glTF accessor descriptor as read by `getAccessorData`; `none` models
an absent property (`hasOwnProperty` false). -/
structure GltfAccessorM where
  bufferView : Option Nat
  byteOffset : Option Nat
  componentType : Nat
  count : Nat
  type : Option String
  sparse : Option SparseM

/-- Outcome of an accessor read: a typed array of elements, the JavaScript
`null` returned for an unknown component type, a reported format error
(never produced by `getAccessorData` — the constructor exists to state what
claim C8 asserts), or a thrown exception. -/
inductive AccData where
  | arr (xs : List Int)
  | null
  | err (msg : String)
  | thrown (msg : String)
deriving DecidableEq

/-- The non-sparse branch of `getAccessorData`: build a typed array over
`bufferView.buffer` at `bufferView.byteOffset + accessor.byteOffset` of
`count * numComponents` elements.  Accessing `bufferViews[undefined]` or a
missing view throws a TypeError; a typed-array constructor whose range
exceeds the underlying buffer throws a RangeError. -/
def getAccessorDataCore (acc : GltfAccessorM) (bufferViews : List BufferViewM) : AccData :=
  match getComponentDataType acc.componentType with
  | none => .null
  | some _ =>
    match acc.bufferView with
    | none => .thrown "TypeError"
    | some bvIdx =>
      match bufferViews.get? bvIdx with
      | none => .thrown "TypeError"
      | some bv =>
        if bv.buffer.length <
            bv.byteOffset + acc.byteOffset.getD 0 + acc.count * getNumComponents acc.type then
          .thrown "RangeError"
        else
          .arr ((bv.buffer.drop (bv.byteOffset + acc.byteOffset.getD 0)).take
            (acc.count * getNumComponents acc.type))

/-- The sparse patch loop: for each sparse entry `i`, overwrite
`result[targetIndex * numComponents + j]` with
`values[i * numComponents + j]`.  Reading past the end of the values array
gives `undefined`, stored as 0 in an integer-typed array; a write past the
end of the result array is a no-op (typed-array out-of-range store). -/
def sparsePatch (numComponents : Nat) (indices values base : List Int)
    (count : Nat) : List Int :=
  (List.range count).foldl (fun result i =>
    match indices.get? i with
    | none => result
    | some targetIndex =>
      (List.range numComponents).foldl (fun result j =>
        result.set (targetIndex.toNat * numComponents + j)
          ((values.get? (i * numComponents + j)).getD 0)) result) base

/-- The sparse loop including the JavaScript error behavior when the
recursively read index or value array is `null` (an unknown component type
on the inner accessor): indexing `null` throws a TypeError — but only if
the loop body runs at all. -/
def sparseLoop (numComponents : Nat) (indicesOpt valuesOpt : Option (List Int))
    (base : List Int) (count : Nat) : AccData :=
  if count = 0 then .arr base
  else
    match indicesOpt with
    | none => .thrown "TypeError"
    | some indices =>
      if numComponents = 0 then .arr base
      else
        match valuesOpt with
        | none => .thrown "TypeError"
        | some values => .arr (sparsePatch numComponents indices values base count)

/-- The array of an accessor-read outcome, as passed on to the sparse loop:
the typed array, or `none` for the JavaScript `null` result. -/
def AccData.toArrOpt : AccData → Option (List Int)
  | .arr xs => some xs
  | _ => none

/-- Model of `getAccessorData(gltfAccessor, bufferViews)`: check the
component type (unknown gives `null`), then either read directly
(non-sparse) or assemble the sparse result: read the index accessor (a
SCALAR accessor over `sparse.indices`), read the value accessor — whose
element type the source takes from the nonexistent field
`gltfAccessor.scalar`, that is `undefined`, so the values are always read
with the default of three components per element — then copy the base data
(`.slice()`) if the accessor has a buffer view or allocate a zero-filled
array, and overwrite the indexed rows.  The recursive `getAccessorData`
calls of the source always hit the non-sparse branch (the synthesized
accessors carry no `sparse` field), modelled by calling
`getAccessorDataCore` directly. -/
def getAccessorData (acc : GltfAccessorM) (bufferViews : List BufferViewM) : AccData :=
  match getComponentDataType acc.componentType with
  | none => .null
  | some _ =>
    match acc.sparse with
    | none => getAccessorDataCore acc bufferViews
    | some sparse =>
      match getAccessorDataCore
          ⟨some sparse.indices.bufferView, sparse.indices.byteOffset,
            sparse.indices.componentType, sparse.count, some "SCALAR", none⟩
          bufferViews with
      | .thrown m => .thrown m
      | .err m => .err m
      | indicesResult =>
        match getAccessorDataCore
            ⟨some sparse.values.bufferView, sparse.values.byteOffset,
              acc.componentType, sparse.count, none, none⟩
            bufferViews with
        | .thrown m => .thrown m
        | .err m => .err m
        | valuesResult =>
          match acc.bufferView with
          | none =>
            sparseLoop (getNumComponents acc.type) indicesResult.toArrOpt
              valuesResult.toArrOpt
              (List.replicate (acc.count * getNumComponents acc.type) 0)
              sparse.count
          | some _ =>
            match getAccessorDataCore
                ⟨acc.bufferView, acc.byteOffset, acc.componentType, acc.count,
                  acc.type, none⟩ bufferViews with
            | .arr xs =>
              sparseLoop (getNumComponents acc.type) indicesResult.toArrOpt
                valuesResult.toArrOpt xs sparse.count
            | .null => .thrown "TypeError"
            | .err m => .err m
            | .thrown m => .thrown m

/-- C8 (amended): for every accessor whose componentType code is outside
the fixed set 5120–5126, `getAccessorData` yields the JavaScript `null` —
no data, and no reported error of any kind. -/
theorem getAccessorData_unknown_component_type (acc : GltfAccessorM)
    (bvs : List BufferViewM)
    (h : acc.componentType ∉ [5120, 5121, 5122, 5123, 5124, 5125, 5126]) :
    getAccessorData acc bvs = .null := by
  have hdt : getComponentDataType acc.componentType = none := by
    simp only [List.mem_cons, List.not_mem_nil, or_false, not_or] at h
    obtain ⟨h1, h2, h3, h4, h5, h6, h7⟩ := h
    simp [getComponentDataType, h1, h2, h3, h4, h5, h6, h7]
  unfold getAccessorData
  rw [hdt]

/-- An accessor with the unknown componentType 9999. -/
def accBadType : GltfAccessorM := ⟨none, none, 9999, 1, some "VEC3", none⟩

/-- Counterexample to C8 as stated: reading an accessor with an unknown
componentType does not fail with a reported format error — it silently
returns `null` (the callers then crash on the null with a TypeError, not a
descriptive error). -/
theorem getAccessorData_no_format_error :
    getAccessorData accBadType [] = .null ∧
      ¬ ∃ msg, getAccessorData accBadType [] = .err msg := by
  refine ⟨by decide, ?_⟩
  rintro ⟨m, hm⟩
  have h0 : getAccessorData accBadType [] = .null := by decide
  rw [h0] at hm
  cases hm

/-- Witness for the amended C8 at componentType 9999. -/
theorem getAccessorData_unknown_component_type_witness :
    getAccessorData accBadType [] = .null :=
  getAccessorData_unknown_component_type accBadType [] (by decide)

/-- The spec's sparse example: a 2-element VEC3 accessor (uint8 components)
with no base buffer view and the sparse patch indices=[1], values=[1,2,3]. -/
def vec3SparseAccessor : GltfAccessorM :=
  ⟨none, none, 5121, 2, some "VEC3", some ⟨1, ⟨0, none, 5121⟩, ⟨1, none⟩⟩⟩

/-- Buffer views for the VEC3 example: view 0 holds the index array [1],
view 1 holds the value array [1,2,3]. -/
def vec3SparseBufferViews : List BufferViewM := [⟨[1], 0⟩, ⟨[1, 2, 3], 0⟩]

/-- A 1-element VEC4 sparse accessor (uint8 components) with no base buffer
view and the sparse patch indices=[0], values=[1,2,3,4]. -/
def vec4SparseAccessor : GltfAccessorM :=
  ⟨none, none, 5121, 1, some "VEC4", some ⟨1, ⟨0, none, 5121⟩, ⟨1, none⟩⟩⟩

/-- Buffer views for the VEC4 case: view 0 holds the index array [0],
view 1 holds the value array [1,2,3,4]. -/
def vec4SparseBufferViews : List BufferViewM := [⟨[0], 0⟩, ⟨[1, 2, 3, 4], 0⟩]

/-- C3: the spec's VEC3 example decodes as claimed — but only because a
VEC3 accessor has exactly the three components that the `gltfAccessor.scalar`
slip hard-wires for the sparse value array.  For a VEC4 sparse accessor the
value array is still read with three components per element, so the fourth
component of the patched row reads past the end of the value view
(`undefined`, stored as 0): the result is [1,2,3,0] where the claim
requires the sparse value row [1,2,3,4]. -/
theorem sparse_vec4_truncated :
    getAccessorData vec3SparseAccessor vec3SparseBufferViews
        = .arr [0, 0, 0, 1, 2, 3] ∧
      getAccessorData vec4SparseAccessor vec4SparseBufferViews
        = .arr [1, 2, 3, 0] ∧
      AccData.arr [1, 2, 3, 0] ≠ .arr [1, 2, 3, 4] := by
  exact ⟨by decide, by decide, by decide⟩

/-! Quaternion continuity correction of `createAnimation`: rotation channels
with non-cubic interpolation contribute their curve's output index to
`quatArrays`; the list is sorted (JavaScript's default sort — lexicographic
on the decimal string renderings), consecutive duplicates are skipped, and
each remaining 4-component output has adjacent quaternion keyframes with a
negative dot product sign-flipped in place, sequentially. -/

/-- Modelled from the spec: the interpolation-mode constants imported from
anim/constants.js, which is not under src/.  Only their distinctness
matters to the claim: the correction applies exactly to the non-cubic
modes. -/
def INTERPOLATION_STEP : Nat := 0

/-- Linear interpolation mode (see `INTERPOLATION_STEP`). -/
def INTERPOLATION_LINEAR : Nat := 1

/-- Cubic interpolation mode (see `INTERPOLATION_STEP`). -/
def INTERPOLATION_CUBIC : Nat := 2

/-- Model of `String.prototype.startsWith`, used for the rotation-path test. -/
def jsStartsWith (s p : String) : Bool :=
  List.isPrefixOf p.data s.data

/-- One animation channel: the target path and the sampler index
(`channel.target.path`, `channel.sampler`). -/
structure AnimChannelM where
  targetPath : String
  sampler : Nat

/-- One converted curve: its interpolation mode and the index of its
deduplicated output series (`curve.interpolation`, `curve.output`). -/
structure AnimCurveM where
  interpolation : Nat
  output : Nat

/-- One deduplicated output series (`AnimData`): component count and data. -/
structure AnimDataM where
  components : Nat
  data : List Int
deriving DecidableEq

/-- The channel scan that collects `quatArrays`: for each channel, the
curve at its sampler index contributes its output index when the target
path starts with "rotation" and the interpolation is not cubic.  A channel
referencing a missing curve is skipped for totality (the source would throw
there; `createAnimation` builds one curve per sampler, so every valid
channel finds its curve). -/
def quatArrays (channels : List AnimChannelM) (curves : List AnimCurveM) : List Nat :=
  channels.filterMap (fun ch =>
    match curves.get? ch.sampler with
    | none => none
    | some cur =>
      if jsStartsWith ch.targetPath "rotation" = true ∧
          cur.interpolation ≠ INTERPOLATION_CUBIC then
        some cur.output
      else none)

/-- JavaScript default sort order on numbers: lexicographic comparison of
their decimal string renderings. -/
def natStrLe (a b : Nat) : Prop := jsStrLe (toString a) (toString b) = true

instance : DecidableRel natStrLe := fun a b => inferInstanceAs (Decidable (_ = true))

/-- The duplicate-skipping loop over the sorted index list (`prevIndex`):
an entry equal to the previously processed entry is skipped. -/
def skipDupsAux (prev : Nat) : List Nat → List Nat
  | [] => []
  | x :: rest => if x = prev then skipDupsAux prev rest else x :: skipDupsAux x rest

/-- Entry point of the duplicate skip: the first entry is always
processed. -/
def skipDups : List Nat → List Nat
  | [] => []
  | x :: rest => x :: skipDupsAux x rest

/-- The in-place flip loop over one quaternion data array, sequentially:
each next keyframe whose dot product with the (already corrected) previous
keyframe is negative is negated.  The source iterates `j` by 4 while
`j < d.length - 4`; when fewer than four elements remain past `j + 4`, the
dot product reads `undefined` and is NaN, which never satisfies `dp < 0`,
so a ragged tail is never flipped — matching this recursion, which stops
when fewer than four elements remain. -/
def flipQuatsAux : Int × Int × Int × Int → List Int → List Int
  | _, [] => []
  | _, [a] => [a]
  | _, [a, b] => [a, b]
  | _, [a, b, c] => [a, b, c]
  | (p0, p1, p2, p3), a :: b :: c :: e :: rest =>
    if p0 * a + p1 * b + p2 * c + p3 * e < 0 then
      -a :: -b :: -c :: -e :: flipQuatsAux (-a, -b, -c, -e) rest
    else
      a :: b :: c :: e :: flipQuatsAux (a, b, c, e) rest

/-- The flip loop on a whole data array: the first keyframe is never
flipped; arrays of fewer than four elements are untouched (`len` is
negative and the loop body never runs). -/
def flipQuats : List Int → List Int
  | p0 :: p1 :: p2 :: p3 :: rest => p0 :: p1 :: p2 :: p3 :: flipQuatsAux (p0, p1, p2, p3) rest
  | short => short

/-- One pass of the flip phase for a single listed output index: an output
with exactly 4 components has its data flipped in place; others are left
untouched.  An out-of-range index cannot occur for curves built by
`createAnimation` (each `curve.output` indexes the outputs array) and is
skipped for totality. -/
def quatFixStep (outs : List AnimDataM) (idx : Nat) : List AnimDataM :=
  match outs.get? idx with
  | none => outs
  | some d =>
    if d.components = 4 then outs.set idx ⟨d.components, flipQuats d.data⟩ else outs

/-- The pass over the whole deduplicated index list. -/
def applyQuatFix (outputs : List AnimDataM) (idxs : List Nat) : List AnimDataM :=
  idxs.foldl quatFixStep outputs

/-- The whole quaternion-continuity step of `createAnimation`: collect,
sort, skip duplicates, flip. -/
def processQuatCurves (channels : List AnimChannelM) (curves : List AnimCurveM)
    (outputs : List AnimDataM) : List AnimDataM :=
  applyQuatFix outputs (skipDups (List.insertionSort natStrLe (quatArrays channels curves)))

theorem mem_of_mem_skipDupsAux {x p : Nat} :
    ∀ {l : List Nat}, x ∈ skipDupsAux p l → x ∈ l
  | [], h => by cases h
  | y :: rest, h => by
    by_cases hy : y = p
    · simp only [skipDupsAux, if_pos hy] at h
      exact List.mem_cons_of_mem y (mem_of_mem_skipDupsAux h)
    · simp only [skipDupsAux, if_neg hy] at h
      rcases List.mem_cons.mp h with rfl | h
      · exact List.mem_cons_self x rest
      · exact List.mem_cons_of_mem y (mem_of_mem_skipDupsAux h)

theorem mem_of_mem_skipDups {x : Nat} {l : List Nat} (h : x ∈ skipDups l) : x ∈ l := by
  cases l with
  | nil => cases h
  | cons y rest =>
    rcases List.mem_cons.mp h with rfl | h
    · exact List.mem_cons_self x rest
    · exact List.mem_cons_of_mem y (mem_of_mem_skipDupsAux h)

theorem mem_skipDupsAux_of_mem {x p : Nat} :
    ∀ {l : List Nat}, x ∈ l → x ∈ skipDupsAux p l ∨ x = p
  | [], h => by cases h
  | y :: rest, h => by
    by_cases hy : y = p
    · simp only [skipDupsAux, if_pos hy]
      rcases List.mem_cons.mp h with rfl | h
      · exact Or.inr hy
      · exact mem_skipDupsAux_of_mem h
    · simp only [skipDupsAux, if_neg hy]
      rcases List.mem_cons.mp h with rfl | h
      · exact Or.inl (List.mem_cons_self x _)
      · rcases mem_skipDupsAux_of_mem (p := y) h with hin | rfl
        · exact Or.inl (List.mem_cons_of_mem y hin)
        · exact Or.inl (List.mem_cons_self x _)

theorem mem_skipDups_of_mem {x : Nat} {l : List Nat} (h : x ∈ l) : x ∈ skipDups l := by
  cases l with
  | nil => cases h
  | cons y rest =>
    simp only [skipDups]
    rcases List.mem_cons.mp h with rfl | h
    · exact List.mem_cons_self x _
    · rcases mem_skipDupsAux_of_mem (p := y) h with hin | rfl
      · exact List.mem_cons_of_mem y hin
      · exact List.mem_cons_self x _

theorem flipQuatsAux_idem : ∀ (p : Int × Int × Int × Int) (l : List Int),
    flipQuatsAux p (flipQuatsAux p l) = flipQuatsAux p l
  | _, [] => rfl
  | _, [a] => rfl
  | _, [a, b] => rfl
  | _, [a, b, c] => rfl
  | (p0, p1, p2, p3), a :: b :: c :: e :: rest => by
    by_cases hdp : p0 * a + p1 * b + p2 * c + p3 * e < 0
    · simp only [flipQuatsAux, if_pos hdp]
      have hneg : p0 * -a + p1 * -b + p2 * -c + p3 * -e
          = -(p0 * a + p1 * b + p2 * c + p3 * e) := by ring
      have hnd : ¬ p0 * -a + p1 * -b + p2 * -c + p3 * -e < 0 := by
        rw [hneg]; omega
      simp only [flipQuatsAux, if_neg hnd]
      rw [flipQuatsAux_idem]
    · simp only [flipQuatsAux, if_neg hdp]
      rw [flipQuatsAux_idem]

theorem flipQuats_idem (d : List Int) : flipQuats (flipQuats d) = flipQuats d := by
  match d with
  | [] => rfl
  | [a] => rfl
  | [a, b] => rfl
  | [a, b, c] => rfl
  | p0 :: p1 :: p2 :: p3 :: rest =>
    simp only [flipQuats]
    rw [flipQuatsAux_idem]

theorem quatFixStep_get_ne {outs : List AnimDataM} {k idx : Nat} (h : k ≠ idx) :
    (quatFixStep outs k).get? idx = outs.get? idx := by
  cases hg : outs.get? k with
  | none => simp only [quatFixStep, hg]
  | some d =>
    by_cases hc : d.components = 4
    · simp only [quatFixStep, hg, if_pos hc]
      exact List.get?_set_ne _ _ h
    · simp only [quatFixStep, hg, if_neg hc]

theorem applyQuatFix_not_mem {idx : Nat} :
    ∀ {idxs : List Nat} {outs : List AnimDataM}, idx ∉ idxs →
      (applyQuatFix outs idxs).get? idx = outs.get? idx
  | [], outs, _ => rfl
  | k :: rest, outs, h => by
    have hk : k ≠ idx := fun hh => h (hh ▸ List.mem_cons_self k rest)
    have hrest : idx ∉ rest := fun hh => h (List.mem_cons_of_mem k hh)
    show (applyQuatFix (quatFixStep outs k) rest).get? idx = outs.get? idx
    rw [applyQuatFix_not_mem hrest, quatFixStep_get_ne hk]

theorem applyQuatFix_mem {idx : Nat} {d0 : AnimDataM} (hc4 : d0.components = 4) :
    ∀ {idxs : List Nat} {outs : List AnimDataM},
      (outs.get? idx = some d0 ∨
        outs.get? idx = some ⟨d0.components, flipQuats d0.data⟩) →
      idx ∈ idxs →
      (applyQuatFix outs idxs).get? idx = some ⟨d0.components, flipQuats d0.data⟩
  | [], _, _, hmem => by cases hmem
  | k :: rest, outs, hinv, hmem => by
    show (applyQuatFix (quatFixStep outs k) rest).get? idx = _
    by_cases hk : k = idx
    · subst hk
      have hstep : (quatFixStep outs k).get? k
          = some ⟨d0.components, flipQuats d0.data⟩ := by
        rcases hinv with hcur | hcur <;>
        · have hlt : k < outs.length := (List.get?_eq_some.mp hcur).1
          simp only [quatFixStep, hcur, hc4, if_pos]
          rw [List.get?_eq_getElem?, List.getElem?_set_eq_of_lt _ hlt]
          try simp [flipQuats_idem]
      by_cases hrest : k ∈ rest
      · exact applyQuatFix_mem hc4 (Or.inr hstep) hrest
      · rw [applyQuatFix_not_mem hrest, hstep]
    · have hrest : idx ∈ rest := by
        rcases List.mem_cons.mp hmem with rfl | hmem
        · exact absurd rfl hk
        · exact hmem
      have hinv' : (quatFixStep outs k).get? idx = some d0 ∨
          (quatFixStep outs k).get? idx = some ⟨d0.components, flipQuats d0.data⟩ := by
        rw [quatFixStep_get_ne hk]
        exact hinv
      exact applyQuatFix_mem hc4 hinv' hrest

/-- C5: in every animation, an output series referenced by a rotation
channel with non-cubic interpolation and having 4 components is rewritten
to its sequential shortest-arc correction (`flipQuats`: each adjacent
quaternion pair with negative dot product has its second keyframe negated in
place); and an output series all of whose rotation references use cubic
interpolation is excluded from the correction and left unchanged. -/
theorem rotation_quat_continuity (channels : List AnimChannelM)
    (curves : List AnimCurveM) (outputs : List AnimDataM) (idx : Nat) :
    (∀ d, outputs.get? idx = some d → d.components = 4 →
      (∃ ch ∈ channels, ∃ cur, curves.get? ch.sampler = some cur ∧
        jsStartsWith ch.targetPath "rotation" = true ∧
        cur.interpolation ≠ INTERPOLATION_CUBIC ∧ cur.output = idx) →
      (processQuatCurves channels curves outputs).get? idx
        = some ⟨4, flipQuats d.data⟩) ∧
    ((∀ ch ∈ channels, ∀ cur, curves.get? ch.sampler = some cur →
        jsStartsWith ch.targetPath "rotation" = true → cur.output = idx →
        cur.interpolation = INTERPOLATION_CUBIC) →
      (processQuatCurves channels curves outputs).get? idx = outputs.get? idx) := by
  constructor
  · rintro d hget hc4 ⟨ch, hch, cur, hcur, hrot, hncubic, hout⟩
    have hqa : idx ∈ quatArrays channels curves := by
      unfold quatArrays
      rw [List.mem_filterMap]
      refine ⟨ch, hch, ?_⟩
      rw [hcur]
      dsimp only
      simp only [if_pos (And.intro hrot hncubic)]
      rw [hout]
    have hmem : idx ∈ skipDups (List.insertionSort natStrLe (quatArrays channels curves)) :=
      mem_skipDups_of_mem ((List.mem_insertionSort natStrLe).mpr hqa)
    have h := @applyQuatFix_mem idx d hc4 _ _ (Or.inl hget) hmem
    rw [show (⟨d.components, flipQuats d.data⟩ : AnimDataM)
      = ⟨4, flipQuats d.data⟩ by rw [hc4]] at h
    exact h
  · intro hall
    have hnot : idx ∉ quatArrays channels curves := by
      intro hqa
      unfold quatArrays at hqa
      rw [List.mem_filterMap] at hqa
      obtain ⟨ch, hch, hf⟩ := hqa
      cases hcg : curves.get? ch.sampler with
      | none => rw [hcg] at hf; cases hf
      | some cur =>
        rw [hcg] at hf
        dsimp only at hf
        by_cases hcond : jsStartsWith ch.targetPath "rotation" = true ∧
            cur.interpolation ≠ INTERPOLATION_CUBIC
        · rw [if_pos hcond] at hf
          have hout : cur.output = idx := Option.some.inj hf
          exact hcond.2 (hall ch hch cur hcg hcond.1 hout)
        · rw [if_neg hcond] at hf
          cases hf
    have hnot' : idx ∉ skipDups (List.insertionSort natStrLe (quatArrays channels curves)) :=
      fun h => hnot ((List.mem_insertionSort natStrLe).mp (mem_of_mem_skipDups h))
    exact applyQuatFix_not_mem hnot'

/-- Witness for C5: the antipodal rotation curve [(0,0,0,1), (0,0,0,-1)]
under a linear-interpolation rotation channel is corrected to
[(0,0,0,1), (0,0,0,1)]. -/
theorem rotation_quat_continuity_witness :
    (processQuatCurves [⟨"rotation", 0⟩] [⟨INTERPOLATION_LINEAR, 0⟩]
        [⟨4, [0, 0, 0, 1, 0, 0, 0, -1]⟩]).get? 0
      = some ⟨4, [0, 0, 0, 1, 0, 0, 0, 1]⟩ := by
  have h := (rotation_quat_continuity [⟨"rotation", 0⟩] [⟨INTERPOLATION_LINEAR, 0⟩]
      [⟨4, [0, 0, 0, 1, 0, 0, 0, -1]⟩] 0).1 ⟨4, [0, 0, 0, 1, 0, 0, 0, -1]⟩ rfl rfl
    ⟨⟨"rotation", 0⟩, List.mem_cons_self _ _,
      ⟨INTERPOLATION_LINEAR, 0⟩, rfl, by decide, by decide, rfl⟩
  rw [h]
  decide

/-! Node-hierarchy assembly of `createNodes`: after building one parentless
entity per document node, the source iterates the document nodes in order
and, for each child index in a node's children list, attaches the child
entity to the iterating node only when the child has no parent yet
(`if (!child.parent) parent.addChild(child)`).  The model tracks each
entity's parent assignment (`none` = no parent); a child index with no
corresponding node would make the source read `.parent` of `undefined` and
throw a TypeError. -/

/-- A document node, reduced to its children list; a node without a
`children` property behaves like one with an empty list (the inner loop
does not run). -/
structure GltfNodeM where
  children : List Nat

/-- The inner loop over one node's children list: claim each child that has
no parent yet; a child index out of range throws. -/
def claimChildren (parentIdx : Nat) : List Nat → List (Option Nat) →
    Except String (List (Option Nat))
  | [], parents => .ok parents
  | c :: rest, parents =>
    match parents.get? c with
    | none => .error "TypeError"
    | some none => claimChildren parentIdx rest (parents.set c (some parentIdx))
    | some (some _) => claimChildren parentIdx rest parents

/-- The outer loop over the document nodes, carrying the index. -/
def buildHierarchyAux : List GltfNodeM → Nat → List (Option Nat) →
    Except String (List (Option Nat))
  | [], _, parents => .ok parents
  | nd :: rest, i, parents =>
    match claimChildren i nd.children parents with
    | .error e => .error e
    | .ok parents' => buildHierarchyAux rest (i + 1) parents'

/-- The hierarchy pass of `createNodes`: every entity starts parentless. -/
def createNodesHierarchy (gnodes : List GltfNodeM) : Except String (List (Option Nat)) :=
  buildHierarchyAux gnodes 0 (List.replicate gnodes.length none)

/-- The first claimant of a child in document node order, starting the
index count at `i`: the claim's "first parent that claims it". -/
def firstClaimantAux (c : Nat) : List GltfNodeM → Nat → Option Nat
  | [], _ => none
  | nd :: rest, i => if c ∈ nd.children then some i else firstClaimantAux c rest (i + 1)

/-- The first node index, in document order, whose children list contains
`c` (`none` when no node claims `c`). -/
def firstClaimant (gnodes : List GltfNodeM) (c : Nat) : Option Nat :=
  firstClaimantAux c gnodes 0

theorem claimChildren_spec (i : Nat) :
    ∀ (cs : List Nat) (parents : List (Option Nat)),
      (∀ c ∈ cs, c < parents.length) →
      ∃ parents', claimChildren i cs parents = .ok parents' ∧
        parents'.length = parents.length ∧
        (∀ x p, parents.get? x = some (some p) → parents'.get? x = some (some p)) ∧
        (∀ x, parents.get? x = some none →
          parents'.get? x = some (if x ∈ cs then some i else none))
  | [], parents, _ => by
    refine ⟨parents, rfl, rfl, fun x p h => h, fun x h => ?_⟩
    simp only [List.not_mem_nil, if_neg (fun hh => hh)]
    simpa using h
  | c :: rest, parents, hwf => by
    have hc : c < parents.length := hwf c (List.mem_cons_self c rest)
    cases hslot : parents.get? c with
    | none =>
      exact absurd ((List.get?_eq_some.mpr ⟨hc, rfl⟩)) (by rw [hslot]; simp)
    | some slot =>
      cases slot with
      | none =>
        have hwf' : ∀ x ∈ rest, x < (parents.set c (some i)).length := by
          intro x hx
          rw [List.length_set]
          exact hwf x (List.mem_cons_of_mem c hx)
        obtain ⟨parents', hok, hlen, hkeep, hfill⟩ :=
          claimChildren_spec i rest (parents.set c (some i)) hwf'
        refine ⟨parents', ?_, by rw [hlen, List.length_set], ?_, ?_⟩
        · show claimChildren i (c :: rest) parents = .ok parents'
          simp only [claimChildren, hslot]
          exact hok
        · intro x p hx
          apply hkeep
          by_cases hxc : x = c
          · subst hxc
            rw [hslot] at hx
            cases hx
          · rw [List.get?_set_ne _ _ (fun hh => hxc hh.symm)]
            exact hx
        · intro x hx
          by_cases hxc : x = c
          · subst hxc
            have := hkeep x i (by
              rw [List.get?_eq_getElem?, List.getElem?_set_eq_of_lt _ hc])
            rw [this]
            simp [List.mem_cons_self]
          · have hx' : (parents.set c (some i)).get? x = some none := by
              rw [List.get?_set_ne _ _ (fun hh => hxc hh.symm)]
              exact hx
            rw [hfill x hx']
            by_cases hxr : x ∈ rest
            · rw [if_pos hxr, if_pos (List.mem_cons_of_mem c hxr)]
            · rw [if_neg hxr,
                if_neg (fun hh => (List.mem_cons.mp hh).elim (fun h1 => hxc h1) hxr)]
      | some p0 =>
        obtain ⟨parents', hok, hlen, hkeep, hfill⟩ :=
          claimChildren_spec i rest parents
            (fun x hx => hwf x (List.mem_cons_of_mem c hx))
        refine ⟨parents', ?_, hlen, hkeep, ?_⟩
        · show claimChildren i (c :: rest) parents = .ok parents'
          simp only [claimChildren, hslot]
          exact hok
        · intro x hx
          have hxc : x ≠ c := by
            intro hh
            subst hh
            rw [hslot] at hx
            cases hx
          rw [hfill x hx]
          by_cases hxr : x ∈ rest
          · rw [if_pos hxr, if_pos (List.mem_cons_of_mem c hxr)]
          · rw [if_neg hxr,
              if_neg (fun hh => (List.mem_cons.mp hh).elim (fun h1 => hxc h1) hxr)]

theorem buildHierarchyAux_spec :
    ∀ (nds : List GltfNodeM) (i : Nat) (parents : List (Option Nat)),
      (∀ nd ∈ nds, ∀ c ∈ nd.children, c < parents.length) →
      ∃ parents', buildHierarchyAux nds i parents = .ok parents' ∧
        parents'.length = parents.length ∧
        (∀ x p, parents.get? x = some (some p) → parents'.get? x = some (some p)) ∧
        (∀ x, parents.get? x = some none →
          parents'.get? x = some (firstClaimantAux x nds i))
  | [], i, parents, _ => ⟨parents, rfl, rfl, fun _ _ h => h, fun x h => h⟩
  | nd :: rest, i, parents, hwf => by
    obtain ⟨parents₂, hok₂, hlen₂, hkeep₂, hfill₂⟩ :=
      claimChildren_spec i nd.children parents
        (hwf nd (List.mem_cons_self nd rest))
    obtain ⟨parents', hok, hlen, hkeep, hfill⟩ :=
      buildHierarchyAux_spec rest (i + 1) parents₂ (by
        intro nd' hnd' c hc
        rw [hlen₂]
        exact hwf nd' (List.mem_cons_of_mem nd hnd') c hc)
    refine ⟨parents', ?_, by rw [hlen, hlen₂], ?_, ?_⟩
    · show buildHierarchyAux (nd :: rest) i parents = .ok parents'
      simp only [buildHierarchyAux, hok₂]
      exact hok
    · intro x p hx
      exact hkeep x p (hkeep₂ x p hx)
    · intro x hx
      by_cases hclaim : x ∈ nd.children
      · have h₂ := hfill₂ x hx
        rw [if_pos hclaim] at h₂
        have := hkeep x i h₂
        rw [this]
        simp only [firstClaimantAux, if_pos hclaim]
      · have h₂ := hfill₂ x hx
        rw [if_neg hclaim] at h₂
        rw [hfill x h₂]
        simp only [firstClaimantAux, if_neg hclaim]

/-- C6: for a document whose child indices are in range, the hierarchy pass
never fails (a child already attached is silently left in place — no
reparenting error), every node ends with at most one parent (the assignment
is a single optional index), and each claimed child's final parent is the
first node in document order whose children list names it. -/
theorem node_hierarchy_first_claim_wins (gnodes : List GltfNodeM)
    (hwf : ∀ nd ∈ gnodes, ∀ c ∈ nd.children, c < gnodes.length) :
    ∃ parents, createNodesHierarchy gnodes = .ok parents ∧
      parents.length = gnodes.length ∧
      ∀ c, c < gnodes.length → parents.get? c = some (firstClaimant gnodes c) := by
  obtain ⟨parents, hok, hlen, hkeep, hfill⟩ :=
    buildHierarchyAux_spec gnodes 0 (List.replicate gnodes.length none) (by
      intro nd hnd c hc
      rw [List.length_replicate]
      exact hwf nd hnd c hc)
  refine ⟨parents, hok, by rw [hlen, List.length_replicate], ?_⟩
  intro c hc
  have hrep : (List.replicate gnodes.length (none : Option Nat)).get? c = some none := by
    rw [List.get?_eq_getElem?, List.getElem?_replicate]
    simp [hc]
  exact hfill c hrep

/-- Witness for C6: nodes 0 and 1 both claim child 2; the child's final
parent is node 0, the first claimant in document order, and no error is
raised. -/
theorem node_hierarchy_first_claim_wins_witness :
    ∃ parents, createNodesHierarchy [⟨[2]⟩, ⟨[2]⟩, ⟨[]⟩] = .ok parents ∧
      parents.get? 2 = some (some 0) := by
  obtain ⟨parents, hok, hlen, hget⟩ :=
    node_hierarchy_first_claim_wins [⟨[2]⟩, ⟨[2]⟩, ⟨[]⟩] (by decide)
  refine ⟨parents, hok, ?_⟩
  rw [hget 2 (by decide)]
  rfl

end Glb
